import Mathlib

/-!
# SNVS secure real-time clock driver: calendar codec and counter access

Shallow embedding of `drivers/rtc/rtc-snvs.c`.

Conventions of the embedding

* C `int`, `time64_t` (signed 64 bit) and `u64`/`u32` values are integers (`Int`) or naturals
  (`Nat`).  Conversions between integer types are written out: a conversion to an unsigned
  type of width `w` is `% 2 ^ w`, a conversion to a signed type is `wrapS w`.
* Signed arithmetic itself is exact.  Signed overflow is undefined in C, so a statement that
  depends on the value `tm_to_time64` computes carries the range in which the C computation
  cannot overflow: bounds on the fields, or the predicate `tm_to_time64_in_range`.
* `/` and `%` of C on signed operands truncate towards zero: `Int.tdiv` and `Int.tmod`.
* Loops are functions by recursion on a counter that bounds the number of iterations.  The
  callers pass a bound that is never the reason for leaving the loop: the lemmas `*_fuel`
  show that a larger bound gives the same result, and `time64_to_tm_years_spec`,
  `time64_to_tm_months_spec` that the loops of `time64_to_tm` end by their own condition.
  The retry loop of `rtc_read_lp_counter` is bounded in the source itself (`timeout`).
* Out parameters (`struct rtc_time *tm`) are returned as values.
-/

namespace SNVS

/-! ## Machine integers -/

/-- Conversion to a signed integer of width `w` (two's complement, reduction modulo `2 ^ w`). -/
def wrapS (w : Nat) (x : Int) : Int :=
  (x + 2 ^ (w - 1)) % 2 ^ w - 2 ^ (w - 1)

/-- Conversion to C `int` (32 bit). -/
def toInt (x : Int) : Int := wrapS 32 x

/-! ## Calendar codec (`#if !defined(CONFIG_DM_RTC) && !defined(CONFIG_RTC)`) -/

/-- Modelled from the spec: `struct rtc_time` is declared in `<rtc.h>`, which is not part of
the sources at hand.  The six members the driver reads and writes are kept (the calendar
time of the specification: year, month, day, hour, minute, second); the members `tm_wday`,
`tm_yday` and `tm_isdst` are never accessed by `rtc-snvs.c`. -/
structure rtc_time where
  tm_sec : Int
  tm_min : Int
  tm_hour : Int
  tm_mday : Int
  tm_mon : Int
  tm_year : Int
  deriving DecidableEq, Repr

/-- `is_leap`: `((year % 4 == 0) && (year % 100 != 0)) || (year % 400 == 0)`. -/
def is_leap (year : Int) : Bool :=
  (Int.tmod year 4 == 0 && Int.tmod year 100 != 0) || Int.tmod year 400 == 0

/-- `mdays`: days in months for a non-leap year. -/
def mdays : List Int := [31, 28, 31, 30, 31, 30, 31, 31, 30, 31, 30, 31]

/-- `mdays[i]`.  The table has 12 entries; an index outside of it is an out-of-bounds read
in C and reads as `0` here. -/
def mdays_at (i : Nat) : Int := mdays.getD i 0

/-- The `while (true)` loop of `time64_to_tm`, on the pair `(days, year)`. -/
def time64_to_tm_years : Nat → Int → Int → Int × Int
  | 0, days, year => (days, year)
  | fuel + 1, days, year =>
    let ydays : Int := if is_leap year then 366 else 365
    if days ≥ ydays then time64_to_tm_years fuel (days - ydays) (year + 1)
    else (days, year)

/-- The `for (mon = 0; mon < 12; mon++)` loop of `time64_to_tm`, on the pair `(mon, days)`. -/
def time64_to_tm_months (year : Int) : Nat → Nat → Int → Nat × Int
  | 0, mon, days => (mon, days)
  | fuel + 1, mon, days =>
    if mon < 12 then
      let d : Int := mdays_at mon
      let d : Int := if mon = 1 ∧ is_leap year = true then d + 1 else d
      if days ≥ d then time64_to_tm_months year fuel (mon + 1) (days - d)
      else (mon, days)
    else (mon, days)

/-- `time64_to_tm`: seconds since the epoch to `rtc_time` (UTC).  `rem` is an
`unsigned long` (64 bit on the i.MX95 targets of this tree). -/
def time64_to_tm (t : Int) : rtc_time :=
  let days : Int := Int.tdiv t 86400
  let rem : Int := Int.tmod t 86400 % 2 ^ 64
  let yl := time64_to_tm_years days.toNat days 1970
  let year := yl.2
  let ml := time64_to_tm_months year 12 0 yl.1
  { tm_sec := toInt (rem % 60)
    tm_min := toInt (rem / 60 % 60)
    tm_hour := toInt (rem / 3600)
    tm_year := year - 1900
    tm_mon := (ml.1 : Int)
    tm_mday := toInt (ml.2 + 1) }

/-- The loop `for (y = 1970; y < year; y++) days += is_leap(y) ? 366 : 365;`. -/
def tm_to_time64_years (year : Int) : Nat → Int → Int → Int
  | 0, _, days => days
  | fuel + 1, y, days =>
    if y < year then
      tm_to_time64_years year fuel (y + 1) (days + if is_leap y then 366 else 365)
    else days

/-- The loop `for (y = 0; y < mon; y++) { days += mdays[y]; if (y == 1 && is_leap(year))
days += 1; }`. -/
def tm_to_time64_months (year mon : Int) : Nat → Nat → Int → Int
  | 0, _, days => days
  | fuel + 1, y, days =>
    if (y : Int) < mon then
      let days : Int := days + mdays_at y
      let days : Int := if y = 1 ∧ is_leap year = true then days + 1 else days
      tm_to_time64_months year mon fuel (y + 1) days
    else days

/-- `tm_to_time64`: `rtc_time` (UTC) to seconds since the epoch.  The `int` expressions
`tm->tm_year + 1900`, `tm->tm_mday - 1`, `tm->tm_hour * 3600` and `tm->tm_min * 60` are
computed exactly here; the function is the C function on the inputs for which these stay
inside `int` and `mdays` is read inside its bounds (`tm_to_time64_in_range`). -/
def tm_to_time64 (tm : rtc_time) : Int :=
  let year : Int := tm.tm_year + 1900
  let mon : Int := tm.tm_mon
  let days : Int := tm_to_time64_years year (year - 1970).toNat 1970 0
  let days : Int := tm_to_time64_months year mon mon.toNat 0 days
  let days : Int := days + (tm.tm_mday - 1)
  days * 86400 + tm.tm_hour * 3600 + tm.tm_min * 60 + tm.tm_sec

/-! ## Register access -/

/-- `SNVS_LPCR`, offset relative to the LP range. -/
def SNVS_LPCR : Nat := 0x04
/-- `SNVS_LPSRTCMR`: high word of the counter. -/
def SNVS_LPSRTCMR : Nat := 0x1c
/-- `SNVS_LPSRTCLR`: low word of the counter. -/
def SNVS_LPSRTCLR : Nat := 0x20
/-- `SNVS_LPCR_SRTC_ENV`: `(1 << 0)`. -/
def SNVS_LPCR_SRTC_ENV : Nat := 1 <<< 0
/-- `CNTR_TO_SECS_SH`. -/
def CNTR_TO_SECS_SH : Nat := 15
/-- `MAX_RTC_READ_DIFF_CYCLES`. -/
def MAX_RTC_READ_DIFF_CYCLES : Int := 320

/-- Modelled from the spec: the register port.  `readl`, `writel`, `regmap_read` and
`regmap_write` come from `<asm/io.h>` and `<regmap.h>`, which are not part of the sources
at hand; the specification describes them as a capability with `read32(offset) -> u32` and
`write32(offset, value)`.  The hardware behind the port is a state of type `σ`; a read may
change it (the counter runs while it is read). -/
structure RegisterPort (σ : Type) where
  read32 : σ → Nat → Nat × σ
  write32 : σ → Nat → Nat → σ

/-- `struct snvs_priv`.  `regmap` says whether `p->regmap` is set (`CONFIG_REGMAP`). -/
structure snvs_priv where
  base : Nat
  lp_offset : Nat
  regmap : Bool

/-- The location a register access goes to: `p->lp_offset + reg` (an `u32` sum) through the
regmap, `p->base + p->lp_offset + reg` through MMIO. -/
def reg_addr (p : snvs_priv) (reg : Nat) : Nat :=
  if p.regmap then (p.lp_offset + reg) % 2 ^ 32 else p.base + p.lp_offset + reg

/-- `snvs_readl`; the result is an `u32`. -/
def snvs_readl {σ : Type} (P : RegisterPort σ) (p : snvs_priv) (s : σ) (reg : Nat) : Nat × σ :=
  let r := P.read32 s (reg_addr p reg)
  (r.1 % 2 ^ 32, r.2)

/-- `snvs_writel`; the value is an `u32`. -/
def snvs_writel {σ : Type} (P : RegisterPort σ) (p : snvs_priv) (s : σ) (reg val : Nat) : σ :=
  P.write32 s (reg_addr p reg) (val % 2 ^ 32)

/-- `rtc_read_lpsrt`: read the 64 bit timer register, high word first. -/
def rtc_read_lpsrt {σ : Type} (P : RegisterPort σ) (p : snvs_priv) (s : σ) : Nat × σ :=
  let msb := snvs_readl P p s SNVS_LPSRTCMR
  let lsb := snvs_readl P p msb.2 SNVS_LPSRTCLR
  ((msb.1 <<< 32) ||| lsb.1, lsb.2)

/-- The value `diff = read1 - read2` of `rtc_read_lp_counter`: an `u64` difference converted
to `s64`. -/
def lp_diff (read1 read2 : Nat) : Int :=
  wrapS 64 (((read1 : Int) - (read2 : Int)) % 2 ^ 64)

/-- The first operand of the loop condition of `rtc_read_lp_counter`:
`(diff < 0) || (diff > MAX_RTC_READ_DIFF_CYCLES)`. -/
def lp_retry (read1 read2 : Nat) : Bool :=
  decide (lp_diff read1 read2 < 0) || decide (lp_diff read1 read2 > MAX_RTC_READ_DIFF_CYCLES)

/-- The `do { ... } while (... && --timeout)` loop of `rtc_read_lp_counter`.  The first
argument is `timeout - 1`, the value `--timeout` takes if the sample is rejected; the result
is `(read1, timeout, port state)` on leaving the loop. -/
def rtc_read_lp_counter_loop {σ : Type} (P : RegisterPort σ) (p : snvs_priv) :
    Nat → Nat → σ → Nat × Nat × σ
  | 0, read1, s =>
    let read2 := read1
    let r := rtc_read_lpsrt P p s
    if lp_retry r.1 read2 then (r.1, 0, r.2) else (r.1, 1, r.2)
  | n + 1, read1, s =>
    let read2 := read1
    let r := rtc_read_lpsrt P p s
    if lp_retry r.1 read2 then rtc_read_lp_counter_loop P p n r.1 r.2
    else (r.1, n + 2, r.2)

/-- Result of `rtc_read_lp_counter`: the `u32` returned, what was printed, the port state. -/
structure lp_counter (σ : Type) where
  value : Nat
  console : List String
  state : σ

/-- `rtc_read_lp_counter`. -/
def rtc_read_lp_counter {σ : Type} (P : RegisterPort σ) (p : snvs_priv) (s : σ) : lp_counter σ :=
  let timeout : Nat := 100
  let r := rtc_read_lpsrt P p s
  let l := rtc_read_lp_counter_loop P p (timeout - 1) r.1 r.2
  { value := (l.1 >>> CNTR_TO_SECS_SH) % 2 ^ 32
    console := if l.2.1 = 0 then ["snvs rtc: timeout getting valid counter read\n"] else []
    state := l.2.2 }

/-- `snvs_time64_to_tm` with neither `CONFIG_DM_RTC` nor `CONFIG_RTC`: the local helper. -/
def snvs_time64_to_tm (t : Int) : rtc_time := time64_to_tm t

/-- `snvs_tm_to_time64` with neither `CONFIG_DM_RTC` nor `CONFIG_RTC`: the local helper. -/
def snvs_tm_to_time64 (tm : rtc_time) : Int := tm_to_time64 tm

/-- Result of `snvs_rtc_read_time`: return value, `*tm`, console output, port state. -/
structure read_time_result (σ : Type) where
  ret : Int
  tm : rtc_time
  console : List String
  state : σ

/-- `snvs_rtc_read_time`. -/
def snvs_rtc_read_time {σ : Type} (P : RegisterPort σ) (p : snvs_priv) (s : σ) :
    read_time_result σ :=
  let c := rtc_read_lp_counter P p s
  let seconds : Nat := c.value
  { ret := 0, tm := snvs_time64_to_tm (seconds : Int), console := c.console, state := c.state }

/-- `~x` on `u32`. -/
def not32 (x : Nat) : Nat := 2 ^ 32 - 1 - x % 2 ^ 32

/-- `snvs_rtc_set_time`: return value and port state.  `t << 15` and `t >> 17` of the
`time64_t` value `t` are `t * 2 ^ 15` and the floor of `t / 2 ^ 17`. -/
def snvs_rtc_set_time {σ : Type} (P : RegisterPort σ) (p : snvs_priv) (s : σ) (tm : rtc_time) :
    Int × σ :=
  let t : Int := snvs_tm_to_time64 tm
  let lpcr := snvs_readl P p s SNVS_LPCR
  let s := snvs_writel P p lpcr.2 SNVS_LPCR (lpcr.1 &&& not32 SNVS_LPCR_SRTC_ENV)
  let s := snvs_writel P p s SNVS_LPSRTCLR ((t * 2 ^ CNTR_TO_SECS_SH) % 2 ^ 32).toNat
  let s := snvs_writel P p s SNVS_LPSRTCMR ((t / 2 ^ (32 - CNTR_TO_SECS_SH)) % 2 ^ 32).toNat
  let lpcr := snvs_readl P p s SNVS_LPCR
  let s := snvs_writel P p lpcr.2 SNVS_LPCR (lpcr.1 ||| SNVS_LPCR_SRTC_ENV)
  (0, s)

/-! ## Simulated ports -/

/-- One access seen by a recording port. -/
inductive Access where
  | rd (addr val : Nat)
  | wr (addr val : Nat)
  deriving DecidableEq, Repr

/-- The writes of a trace, in order, as `(location, value)`. -/
def writes : List Access → List (Nat × Nat)
  | [] => []
  | Access.wr a v :: tr => (a, v) :: writes tr
  | Access.rd _ _ :: tr => writes tr

/-- The number of reads of a trace. -/
def reads : List Access → Nat
  | [] => 0
  | Access.rd _ _ :: tr => reads tr + 1
  | Access.wr _ _ :: tr => reads tr

/-- A recording register port: the port `P` together with the list of accesses made. -/
def recording {σ : Type} (P : RegisterPort σ) : RegisterPort (σ × List Access) where
  read32 := fun s a => ((P.read32 s.1 a).1, ((P.read32 s.1 a).2, s.2 ++ [Access.rd a (P.read32 s.1 a).1]))
  write32 := fun s a v => (P.write32 s.1 a v, s.2 ++ [Access.wr a v])

/-- A store-and-echo register port: a register file; a write stores the value, a read
returns the value stored. -/
def echo : RegisterPort (Nat → Nat) where
  read32 := fun s a => (s a, s)
  write32 := fun s a v => fun b => if b = a then v else s b

/-- A scripted counter: the state is the number of register reads made so far; reads come in
pairs, high word first, and the `k`-th pair delivers the two halves of `f k`. -/
def scripted (f : Nat → Nat) : RegisterPort Nat where
  read32 := fun n _ => (if n % 2 = 0 then f (n / 2) / 2 ^ 32 % 2 ^ 32 else f (n / 2) % 2 ^ 32, n + 1)
  write32 := fun n _ _ => n

/-- The port state after `k` samples of the counter have been taken from state `s`. -/
def sample_state {σ : Type} (P : RegisterPort σ) (p : snvs_priv) (s : σ) : Nat → σ
  | 0 => s
  | k + 1 => (rtc_read_lpsrt P p (sample_state P p s k)).2

/-- The `k`-th 64 bit sample the port delivers from state `s` (`k = 0` is the first). -/
def sample {σ : Type} (P : RegisterPort σ) (p : snvs_priv) (s : σ) (k : Nat) : Nat :=
  (rtc_read_lpsrt P p (sample_state P p s k)).1

/-- A driver instance using MMIO at the default LP offset `SNVS_LPREGISTER_OFFSET`. -/
def mmio_priv : snvs_priv := { base := 0, lp_offset := 0x34, regmap := false }

/-- A counter script that falls by 1000 ticks from sample to sample. -/
def falling_script (k : Nat) : Nat := 2 ^ 40 - 1000 * k

/-- A counter script near the top of the 64 bit range: it rises by one tick per sample,
except that sample 1 is a torn read delivering `0`. -/
def torn_script (k : Nat) : Nat :=
  if k = 0 then 2 ^ 64 - 320 else if k = 1 then 0 else 2 ^ 64 - 321 + k

/-- A counter script rising by 10 ticks per sample in which sample 1 is a torn read that
delivers a lower value. -/
def recovering_script (k : Nat) : Nat := if k = 1 then 500 else 1000 + 10 * k

/-! ## Initialisation (`snvs_rtc_probe`) -/

/-- `SNVS_LPREGISTER_OFFSET`. -/
def SNVS_LPREGISTER_OFFSET : Nat := 0x34
/-- `SNVS_LPSR`: status register. -/
def SNVS_LPSR : Nat := 0x18
/-- `SNVS_LPPGDR`: glitch-detect register. -/
def SNVS_LPPGDR : Nat := 0x30
/-- `SNVS_LPPGDR_INIT`. -/
def SNVS_LPPGDR_INIT : Nat := 0x41736166

/-- Modelled from the spec: `EINVAL` of `<linux/errno.h>`, which is not part of the sources
at hand; the value is the one of the Linux error numbers. -/
def EINVAL : Int := 22

/-- Modelled from the spec: `regmap_update_bits` of `<regmap.h>`, which is not part of the
sources at hand.  The specification collapses the register map and MMIO into one register
port, so the call is the same read, mask and write as the MMIO branch of `snvs_update_bits`,
at the location `offset`. -/
def regmap_update_bits {σ : Type} (P : RegisterPort σ) (s : σ) (offset mask val : Nat) : σ :=
  let r := P.read32 s offset
  P.write32 r.2 offset ((((r.1 % 2 ^ 32) &&& not32 mask) ||| (val &&& mask)) % 2 ^ 32)

/-- `snvs_update_bits`. -/
def snvs_update_bits {σ : Type} (P : RegisterPort σ) (p : snvs_priv) (s : σ)
    (reg mask val : Nat) : σ :=
  if p.regmap then regmap_update_bits P s ((p.lp_offset + reg) % 2 ^ 32) mask val
  else
    let cur := snvs_readl P p s reg
    let c : Nat := cur.1 &&& not32 mask
    let c : Nat := c ||| (val &&& mask)
    snvs_writel P p cur.2 reg c

/-- What the device model delivers to `snvs_rtc_probe`: the `offset` property, if there is
one (`dev_read_u32_default`), the address of the device with `0` for `NULL`
(`dev_read_addr_ptr`), and whether the `regmap` phandle yields a register map
(`uclass_get_device_by_phandle`, `syscon_get_regmap`; `false` when `CONFIG_SYSCON` or
`CONFIG_REGMAP` is off). -/
structure probe_dev where
  offset : Option Nat
  addr : Nat
  syscon_regmap : Bool

/-- `snvs_rtc_probe`: return value, the private data (zero on entry, `priv_auto`) and the
port state. -/
def snvs_rtc_probe {σ : Type} (P : RegisterPort σ) (dev : probe_dev) (s : σ) :
    Int × snvs_priv × σ :=
  let offset : Nat := dev.offset.getD SNVS_LPREGISTER_OFFSET
  let p : snvs_priv := { base := 0, lp_offset := offset, regmap := dev.syscon_regmap }
  let base : Nat := if p.regmap then 0 else dev.addr
  if base = 0 ∧ p.regmap = false then (-EINVAL, p, s)
  else
    let p : snvs_priv := { p with base := base }
    let s := snvs_writel P p s SNVS_LPPGDR SNVS_LPPGDR_INIT
    let s := snvs_writel P p s SNVS_LPSR 0xffffffff
    let s := snvs_update_bits P p s SNVS_LPCR SNVS_LPCR_SRTC_ENV SNVS_LPCR_SRTC_ENV
    (0, p, s)

/-! ## Auxiliary notions used in the statements -/

/-- Number of days of a year, as both codec directions compute it. -/
def year_days (year : Int) : Int := if is_leap year then 366 else 365

/-- Number of days of month `mon` (counted from 0) of a year, as both codec directions
compute it: the table entry, plus one for index 1 in a leap year. -/
def month_days (year : Int) (mon : Nat) : Int :=
  if mon = 1 ∧ is_leap year = true then mdays_at mon + 1 else mdays_at mon

/-- The lexicographic order on the tuple (year, month, day, hour, minute, second) of two
calendar times. -/
def tm_lt (a b : rtc_time) : Prop :=
  a.tm_year < b.tm_year ∨ (a.tm_year = b.tm_year ∧
    (a.tm_mon < b.tm_mon ∨ (a.tm_mon = b.tm_mon ∧
      (a.tm_mday < b.tm_mday ∨ (a.tm_mday = b.tm_mday ∧
        (a.tm_hour < b.tm_hour ∨ (a.tm_hour = b.tm_hour ∧
          (a.tm_min < b.tm_min ∨ (a.tm_min = b.tm_min ∧ a.tm_sec < b.tm_sec)))))))))

instance (a b : rtc_time) : Decidable (tm_lt a b) := by
  unfold tm_lt
  infer_instance

/-- The values of C `int`. -/
def int_range (x : Int) : Prop := -2147483648 ≤ x ∧ x ≤ 2147483647

instance (x : Int) : Decidable (int_range x) := by
  unfold int_range
  infer_instance

/-- The inputs on which `tm_to_time64` is the C function: every field is an `int`, the `int`
expressions `tm_year + 1900`, `tm_mday - 1`, `tm_hour * 3600` and `tm_min * 60` do not
overflow, and the month loop reads `mdays` inside its 12 entries.  The `time64_t` sums
cannot overflow on these inputs (`tm_to_time64_fits`). -/
def tm_to_time64_in_range (tm : rtc_time) : Prop :=
  int_range tm.tm_sec ∧ int_range tm.tm_min ∧ int_range tm.tm_hour ∧ int_range tm.tm_mday ∧
  int_range tm.tm_mon ∧ int_range tm.tm_year ∧
  int_range (tm.tm_year + 1900) ∧ int_range (tm.tm_mday - 1) ∧
  int_range (tm.tm_hour * 3600) ∧ int_range (tm.tm_min * 60) ∧ tm.tm_mon ≤ 12

instance (tm : rtc_time) : Decidable (tm_to_time64_in_range tm) := by
  unfold tm_to_time64_in_range
  infer_instance

end SNVS

/-!
# Beeper command and GPIO beeper driver

Shallow embedding of `get_beeper_cmd` (`cmd/beeper.c`) and of `gpio_beeper_set_state` and
`gpio_beeper_get_state` (`drivers/beeper/gpio-beeper.c`).  A C string is the list of the
characters it holds before its terminating NUL, one `Char` for each `char`; the values of
`enum beeper_state_t` are integers.
-/

namespace Beeper

/-! ## `enum beeper_state_t` (`include/beeper.h`) -/

/-- `BEEPER_STATUS_OFF`. -/
def BEEPER_STATUS_OFF : Int := 0
/-- `BEEPER_STATUS_ON`. -/
def BEEPER_STATUS_ON : Int := 1
/-- `BEEPER_STATUS_TOGGLE`. -/
def BEEPER_STATUS_TOGGLE : Int := 2
/-- `BEEPER_STATUS_COUNT`. -/
def BEEPER_STATUS_COUNT : Int := 3

/-- Modelled from the spec: `ENOSYS` of `<linux/errno.h>`, which is not part of the sources
at hand; the value is the one of the Linux error numbers. -/
def ENOSYS : Int := 38

/-- Modelled from the spec: `EREMOTEIO` of `<linux/errno.h>`, which is not part of the
sources at hand; the value is the one of the Linux error numbers. -/
def EREMOTEIO : Int := 121

/-! ## Command parsing (`cmd/beeper.c`) -/

/-- The terminating character of a C string. -/
def NUL : Char := Char.ofNat 0

/-- Modelled from the spec: `strlen` of the C library, which is not part of the sources at
hand: the number of characters before the first NUL, the end of the list standing for the
terminating NUL. -/
def strlen : List Char → Nat
  | [] => 0
  | c :: cs => if c = NUL then 0 else strlen cs + 1

/-- Modelled from the spec: `strncmp` of the C library, which is not part of the sources at
hand: compare at most `count` characters, stopping at the first difference or after a NUL;
the result is the difference of the two characters compared last.  Beyond the end of a list
the string reads as its terminating NUL. -/
def strncmp : List Char → List Char → Nat → Int
  | _, _, 0 => 0
  | cs, ct, count + 1 =>
    if cs.headD NUL ≠ ct.headD NUL then ((cs.headD NUL).toNat : Int) - ((ct.headD NUL).toNat : Int)
    else if cs.headD NUL = NUL then 0
    else strncmp cs.tail ct.tail count

/-- `state_label`. -/
def state_label : List (List Char) :=
  [['o', 'f', 'f'], ['o', 'n'], ['t', 'o', 'g', 'g', 'l', 'e']]

/-- The loop `for (i = 0; i < BEEPER_STATUS_COUNT; i++)` of `get_beeper_cmd`, from index
`i` on. -/
def get_beeper_cmd_loop (var : List Char) : Nat → Nat → Int
  | 0, _ => -1
  | fuel + 1, i =>
    if (i : Int) < BEEPER_STATUS_COUNT then
      if strncmp var (state_label.getD i []) (strlen var) = 0 then (i : Int)
      else get_beeper_cmd_loop var fuel (i + 1)
    else -1

/-- `get_beeper_cmd`. -/
def get_beeper_cmd (var : List Char) : Int :=
  get_beeper_cmd_loop var BEEPER_STATUS_COUNT.toNat 0

/-! ## GPIO beeper (`drivers/beeper/gpio-beeper.c`) -/

/-- Modelled from the spec: `struct gpio_desc` of `<asm/gpio.h>`, which is not part of the
sources at hand.  A GPIO is one stored bit, together with whether the descriptor is valid. -/
structure gpio_desc where
  valid : Bool
  value : Bool
  deriving DecidableEq, Repr

/-- Modelled from the spec: `dm_gpio_is_valid` of `<asm/gpio.h>`. -/
def dm_gpio_is_valid (desc : gpio_desc) : Bool := desc.valid

/-- Modelled from the spec: `dm_gpio_get_value` of `<asm/gpio.h>`: the stored bit, as 0
or 1. -/
def dm_gpio_get_value (desc : gpio_desc) : Int := if desc.value then 1 else 0

/-- Modelled from the spec: `dm_gpio_set_value` of `<asm/gpio.h>`: store whether the value is
non-zero and return 0. -/
def dm_gpio_set_value (desc : gpio_desc) (value : Int) : Int × gpio_desc :=
  (0, { desc with value := decide (value ≠ 0) })

/-- `gpio_beeper_set_state`: return value and the GPIO of `struct beeper_gpio_priv`. -/
def gpio_beeper_set_state (priv : gpio_desc) (state : Int) : Int × gpio_desc :=
  if dm_gpio_is_valid priv = false then (- EREMOTEIO, priv)
  else if state = BEEPER_STATUS_OFF ∨ state = BEEPER_STATUS_ON then
    dm_gpio_set_value priv state
  else if state = BEEPER_STATUS_TOGGLE then
    let ret : Int := dm_gpio_get_value priv
    if ret < 0 then (ret, priv)
    else
      let state : Int := if ret = 0 then 1 else 0
      dm_gpio_set_value priv state
  else (-ENOSYS, priv)

/-- `gpio_beeper_get_state`. -/
def gpio_beeper_get_state (priv : gpio_desc) : Int :=
  if dm_gpio_is_valid priv = false then - EREMOTEIO
  else
    let ret : Int := dm_gpio_get_value priv
    if ret < 0 then ret
    else if ret ≠ 0 then BEEPER_STATUS_ON else BEEPER_STATUS_OFF

end Beeper

namespace SNVS

/-! ## Lemmas on the calendar loops -/

theorem toInt_of_range (x : Int) (h1 : -2 ^ 31 ≤ x) (h2 : x < 2 ^ 31) : toInt x = x := by
  unfold toInt wrapS
  norm_num at h1 h2 ⊢
  omega

theorem year_days_cases (y : Int) : year_days y = 365 ∨ year_days y = 366 := by
  unfold year_days
  split <;> simp

theorem tm_to_time64_years_acc (year : Int) (n : Nat) (y acc : Int) :
    tm_to_time64_years year n y acc = acc + tm_to_time64_years year n y 0 := by
  induction n generalizing y acc with
  | zero => simp [tm_to_time64_years]
  | succ n ih =>
    simp only [tm_to_time64_years]
    split
    · rw [ih (y + 1) (acc + _), ih (y + 1) (0 + _)]
      omega
    · simp

theorem tm_to_time64_years_step (year : Int) (n : Nat) (y : Int) (h : y < year) :
    tm_to_time64_years year (n + 1) y 0 = year_days y + tm_to_time64_years year n (y + 1) 0 := by
  simp only [tm_to_time64_years, if_pos h]
  rw [tm_to_time64_years_acc]
  simp [year_days]

theorem tm_to_time64_years_lower (year : Int) (n : Nat) (y : Int) (h : y + n = year) :
    365 * (n : Int) ≤ tm_to_time64_years year n y 0 := by
  induction n generalizing y with
  | zero => simp [tm_to_time64_years]
  | succ n ih =>
    rw [tm_to_time64_years_step year n y (by omega)]
    have := ih (y + 1) (by push_cast at h; omega)
    rcases year_days_cases y with h1 | h1 <;> (push_cast; omega)

/-- Decoding the years: the loop of `time64_to_tm` leaves the loop by its `break`, with the
day count split into whole years from 1970 and a remainder inside the last year. -/
theorem time64_to_tm_years_spec (fuel : Nat) (days y : Int) (h0 : 0 ≤ days)
    (hf : days.toNat ≤ fuel) :
    ∃ n : Nat, (time64_to_tm_years fuel days y).2 = y + n ∧
      0 ≤ (time64_to_tm_years fuel days y).1 ∧
      (time64_to_tm_years fuel days y).1 < year_days (y + n) ∧
      tm_to_time64_years (y + n) n y 0 + (time64_to_tm_years fuel days y).1 = days := by
  induction fuel generalizing days y with
  | zero =>
    have hd : days = 0 := by omega
    subst hd
    refine ⟨0, ?_⟩
    rcases year_days_cases y with h1 | h1 <;> simp [time64_to_tm_years, tm_to_time64_years, h1]
  | succ fuel ih =>
    simp only [time64_to_tm_years]
    by_cases hge : days ≥ (if is_leap y then 366 else 365)
    · rw [if_pos hge]
      have hyd : year_days y = (if is_leap y then 366 else 365) := rfl
      rcases year_days_cases y with h1 | h1
      all_goals
        obtain ⟨n, e1, e2, e3, e4⟩ := ih (days - (if is_leap y then 366 else 365)) (y + 1)
          (by omega) (by omega)
        refine ⟨n + 1, ?_, e2, ?_, ?_⟩
        · rw [e1]; push_cast; ring
        · have : y + ((n + 1 : Nat) : Int) = y + 1 + n := by push_cast; ring
          rw [this]; exact e3
        · have : y + ((n + 1 : Nat) : Int) = y + 1 + n := by push_cast; ring
          rw [this, tm_to_time64_years_step _ _ _ (by omega)]
          omega
    · rw [if_neg hge]
      refine ⟨0, by simp, by simpa using h0, ?_, by simp [tm_to_time64_years]⟩
      simp only [year_days]
      simpa using hge

/-- Encoding then decoding the years. -/
theorem time64_to_tm_years_of_sum (n : Nat) (y d : Int) (fuel : Nat) (h0 : 0 ≤ d)
    (h1 : d < year_days (y + n))
    (hf : (tm_to_time64_years (y + n) n y 0 + d).toNat ≤ fuel) :
    time64_to_tm_years fuel (tm_to_time64_years (y + n) n y 0 + d) y = (d, y + n) := by
  induction n generalizing y fuel with
  | zero =>
    simp only [tm_to_time64_years, zero_add, Nat.cast_zero, add_zero] at *
    cases fuel with
    | zero => simp [time64_to_tm_years]
    | succ fuel =>
      simp only [time64_to_tm_years]
      rw [if_neg]
      simpa [year_days] using h1
  | succ n ih =>
    have e : y + ((n + 1 : Nat) : Int) = y + 1 + n := by push_cast; ring
    rw [e] at h1 hf ⊢
    rw [tm_to_time64_years_step _ _ _ (by omega)] at hf ⊢
    have hl := tm_to_time64_years_lower (y + 1 + n) n (y + 1) rfl
    have hyd : year_days y = (if is_leap y then 366 else 365) := rfl
    cases fuel with
    | zero => rcases year_days_cases y with h2 | h2 <;> omega
    | succ fuel =>
      simp only [time64_to_tm_years]
      rw [if_pos (by rw [← hyd]; omega)]
      rw [← hyd]
      have : year_days y + tm_to_time64_years (y + 1 + n) n (y + 1) 0 + d - year_days y
          = tm_to_time64_years (y + 1 + n) n (y + 1) 0 + d := by ring
      rw [this]
      apply ih (y + 1) fuel h1
      rcases year_days_cases y with h2 | h2 <;> omega

theorem month_days_nonneg (year : Int) (m : Nat) : 0 ≤ month_days year m := by
  have h : ∀ i : Nat, 0 ≤ mdays_at i := by
    intro i
    by_cases hi : i < 12
    · interval_cases i <;> decide
    · have : mdays_at i = 0 := by
        unfold mdays_at
        rw [List.getD_eq_default]
        simp [mdays]; omega
      omega
  unfold month_days
  have := h m
  split <;> omega

theorem tm_to_time64_months_acc (year mon : Int) (n y : Nat) (acc : Int) :
    tm_to_time64_months year mon n y acc = acc + tm_to_time64_months year mon n y 0 := by
  induction n generalizing y acc with
  | zero => simp [tm_to_time64_months]
  | succ n ih =>
    simp only [tm_to_time64_months]
    split
    · rw [ih (y + 1) _]
      conv => rhs; rw [ih (y + 1) _]
      split <;> omega
    · simp

theorem tm_to_time64_months_step (year mon : Int) (n y : Nat) (h : (y : Int) < mon) :
    tm_to_time64_months year mon (n + 1) y 0
      = month_days year y + tm_to_time64_months year mon n (y + 1) 0 := by
  simp only [tm_to_time64_months, if_pos h]
  rw [tm_to_time64_months_acc]
  simp only [month_days]
  split <;> simp

theorem tm_to_time64_months_nonneg (year : Int) (n y : Nat) (mon : Int) :
    0 ≤ tm_to_time64_months year mon n y 0 := by
  induction n generalizing y with
  | zero => simp [tm_to_time64_months]
  | succ n ih =>
    by_cases h : (y : Int) < mon
    · rw [tm_to_time64_months_step _ _ _ _ h]
      have := ih (y + 1)
      have := month_days_nonneg year y
      omega
    · simp [tm_to_time64_months, h]

theorem tm_to_time64_months_total (year : Int) :
    tm_to_time64_months year 12 12 0 0 = year_days year := by
  cases h : is_leap year <;>
    simp [tm_to_time64_months, year_days, mdays_at, mdays, h]

theorem tm_to_time64_months_upto (year : Int) (m : Nat) (h : m < 12) :
    tm_to_time64_months year m m 0 0 + month_days year m ≤ year_days year := by
  interval_cases m <;> cases h : is_leap year <;>
    simp [tm_to_time64_months, year_days, month_days, mdays_at, mdays, h]

/-- Decoding the months: the loop of `time64_to_tm` splits the day of the year into whole
months and a remainder inside the month it stops at. -/
theorem time64_to_tm_months_spec (year : Int) (fuel m : Nat) (days : Int) (h0 : 0 ≤ days)
    (hf : m + fuel = 12) :
    ∃ k : Nat, (time64_to_tm_months year fuel m days).1 = m + k ∧ m + k ≤ 12 ∧
      0 ≤ (time64_to_tm_months year fuel m days).2 ∧
      (m + k < 12 → (time64_to_tm_months year fuel m days).2 < month_days year (m + k)) ∧
      tm_to_time64_months year ((m + k : Nat) : Int) k m 0
        + (time64_to_tm_months year fuel m days).2 = days := by
  induction fuel generalizing m days with
  | zero =>
    refine ⟨0, by simp [time64_to_tm_months], by omega, by simpa [time64_to_tm_months] using h0,
      by omega, by simp [time64_to_tm_months, tm_to_time64_months]⟩
  | succ fuel ih =>
    have hm : m < 12 := by omega
    simp only [time64_to_tm_months, if_pos hm]
    have hmd : month_days year m
        = (if m = 1 ∧ is_leap year = true then mdays_at m + 1 else mdays_at m) := rfl
    rw [← hmd]
    by_cases hge : days ≥ month_days year m
    · rw [if_pos hge]
      obtain ⟨k, e1, e2, e3, e4, e5⟩ := ih (m + 1) (days - month_days year m)
        (by omega) (by omega)
      have e : m + (k + 1) = m + 1 + k := by omega
      refine ⟨k + 1, by rw [e1]; omega, by omega, e3, ?_, ?_⟩
      · rw [e]; exact e4
      · rw [e, tm_to_time64_months_step _ _ _ _ (by push_cast; omega)]
        omega
    · rw [if_neg hge]
      refine ⟨0, by simp, by omega, by simpa using h0, ?_, by simp [tm_to_time64_months]⟩
      intro _
      simpa using hge

/-- Encoding then decoding the months. -/
theorem time64_to_tm_months_of_sum (year : Int) (k m : Nat) (d : Int) (fuel : Nat)
    (h0 : 0 ≤ d) (hk : m + k < 12) (h1 : d < month_days year (m + k)) (hf : k + 1 ≤ fuel) :
    time64_to_tm_months year fuel m
        (tm_to_time64_months year ((m + k : Nat) : Int) k m 0 + d) = (m + k, d) := by
  induction k generalizing m fuel with
  | zero =>
    obtain ⟨fuel, rfl⟩ : ∃ f, fuel = f + 1 := ⟨fuel - 1, by omega⟩
    have hm : m < 12 := by omega
    have hmd : month_days year m
        = (if m = 1 ∧ is_leap year = true then mdays_at m + 1 else mdays_at m) := rfl
    simp only [time64_to_tm_months, tm_to_time64_months, if_pos hm, zero_add, add_zero]
    rw [← hmd, if_neg (by simpa using h1)]
  | succ k ih =>
    obtain ⟨fuel, rfl⟩ : ∃ f, fuel = f + 1 := ⟨fuel - 1, by omega⟩
    have hm : m < 12 := by omega
    have e : m + (k + 1) = m + 1 + k := by omega
    have hmd : month_days year m
        = (if m = 1 ∧ is_leap year = true then mdays_at m + 1 else mdays_at m) := rfl
    rw [e] at h1 ⊢
    rw [tm_to_time64_months_step _ _ _ _ (by push_cast; omega)]
    have hn := tm_to_time64_months_nonneg year k (m + 1) ((m + 1 + k : Nat) : Int)
    simp only [time64_to_tm_months, if_pos hm]
    rw [← hmd, if_pos (by omega)]
    have : month_days year m + tm_to_time64_months year ((m + 1 + k : Nat) : Int) k (m + 1) 0 + d
        - month_days year m
        = tm_to_time64_months year ((m + 1 + k : Nat) : Int) k (m + 1) 0 + d := by ring
    rw [this]
    exact ih (m + 1) fuel (by omega) h1 (by omega)

theorem month_days_le (year : Int) (m : Nat) : month_days year m ≤ 31 := by
  have h : ∀ i : Nat, mdays_at i ≤ 31 ∧ (i = 1 → mdays_at i = 28) := by
    intro i
    by_cases hi : i < 12
    · interval_cases i <;> decide
    · have : mdays_at i = 0 := by
        unfold mdays_at
        rw [List.getD_eq_default]
        simp [mdays]; omega
      constructor <;> omega
  unfold month_days
  have := h m
  split <;> omega

/-- The fields `time64_to_tm` computes for a non-negative time: the time of day by division,
and a year `1970 + n`, a month index `k < 12` and a day `d + 1` inside that month such that
the whole years, the whole months and `d` add up to the day count. -/
theorem time64_to_tm_fields (E : Int) (h0 : 0 ≤ E) :
    ∃ n k : Nat, ∃ d : Int, k < 12 ∧ 0 ≤ d ∧ d < month_days (1970 + n) k ∧
      time64_to_tm E = { tm_sec := E % 60, tm_min := E / 60 % 60, tm_hour := E % 86400 / 3600,
                         tm_mday := d + 1, tm_mon := k, tm_year := 1970 + n - 1900 } ∧
      tm_to_time64_years (1970 + n) n 1970 0 + tm_to_time64_months (1970 + n) k k 0 0 + d
        = E / 86400 := by
  have hdiv : Int.tdiv E 86400 = E / 86400 := Int.tdiv_eq_ediv h0 (by norm_num)
  have hmod : Int.tmod E 86400 % 2 ^ 64 = E % 86400 := by
    rw [Int.tmod_eq_emod h0 (by norm_num)]
    norm_num
    omega
  obtain ⟨n, y1, y2, y3, y4⟩ :=
    time64_to_tm_years_spec (E / 86400).toNat (E / 86400) 1970 (by omega) le_rfl
  obtain ⟨k, m1, m2, m3, m4, m5⟩ :=
    time64_to_tm_months_spec (1970 + n) 12 0 (time64_to_tm_years (E / 86400).toNat (E / 86400) 1970).1
      y2 (by omega)
  simp only [zero_add] at m1 m2 m4 m5
  have hk : k < 12 := by
    by_contra hk
    have hk12 : k = 12 := by omega
    subst hk12
    have := tm_to_time64_months_total (1970 + n)
    simp only [Nat.cast_ofNat] at m5
    omega
  have hd := m4 hk
  have hle := month_days_le (1970 + n) k
  refine ⟨n, k, _, hk, m3, hd, ?_, by omega⟩
  unfold time64_to_tm
  simp only [hdiv, hmod, y1, m1]
  rw [toInt_of_range _ (by omega) (by omega), toInt_of_range _ (by omega) (by omega),
    toInt_of_range _ (by omega) (by omega), toInt_of_range _ (by omega) (by omega)]
  congr 1 <;> omega


/-- What `tm_to_time64` computes for a year `1970 + n` and a month index `k`. -/
theorem tm_to_time64_eq (n k : Nat) (sec min hour mday : Int) :
    tm_to_time64 { tm_sec := sec, tm_min := min, tm_hour := hour, tm_mday := mday,
                   tm_mon := k, tm_year := 1970 + n - 1900 }
      = (tm_to_time64_years (1970 + n) n 1970 0 + tm_to_time64_months (1970 + n) k k 0 0
          + (mday - 1)) * 86400 + hour * 3600 + min * 60 + sec := by
  unfold tm_to_time64
  have e1 : (1970 + (n : Int) - 1900 + 1900) = 1970 + n := by ring
  have e2 : (1970 + (n : Int) - 1970).toNat = n := by simp
  simp only [e1, e2, Int.toNat_natCast]
  rw [tm_to_time64_months_acc]

/-- Decoding then encoding gives the time back, for every non-negative time. -/
theorem tm_to_time64_time64_to_tm (E : Int) (h0 : 0 ≤ E) :
    tm_to_time64 (time64_to_tm E) = E := by
  obtain ⟨n, k, d, _, _, _, e, hs⟩ := time64_to_tm_fields E h0
  rw [e, tm_to_time64_eq]
  omega

/-- The year `time64_to_tm` computes is at most `1970 + days / 365`. -/
theorem time64_to_tm_year_le (E : Int) (h0 : 0 ≤ E) :
    1970 ≤ (time64_to_tm E).tm_year + 1900 ∧
      365 * ((time64_to_tm E).tm_year + 1900 - 1970) ≤ E / 86400 := by
  obtain ⟨n, k, d, _, hd, _, e, hs⟩ := time64_to_tm_fields E h0
  have h1 := tm_to_time64_years_lower (1970 + n) n 1970 rfl
  have h2 := tm_to_time64_months_nonneg (1970 + n) k 0 k
  rw [e]
  simp only
  omega

/-- Encoding then decoding gives the calendar time back, for a valid date from 1970 on. -/
theorem time64_to_tm_tm_to_time64 (tm : rtc_time) (hy : 1970 ≤ tm.tm_year + 1900)
    (hm0 : 0 ≤ tm.tm_mon) (hm1 : tm.tm_mon ≤ 11) (hd0 : 1 ≤ tm.tm_mday)
    (hd1 : tm.tm_mday ≤ month_days (tm.tm_year + 1900) tm.tm_mon.toNat)
    (hh0 : 0 ≤ tm.tm_hour) (hh1 : tm.tm_hour ≤ 23) (hi0 : 0 ≤ tm.tm_min) (hi1 : tm.tm_min ≤ 59)
    (hs0 : 0 ≤ tm.tm_sec) (hs1 : tm.tm_sec ≤ 59) :
    time64_to_tm (tm_to_time64 tm) = tm := by
  obtain ⟨sec, min, hour, mday, mon, year⟩ := tm
  simp only at hy hm0 hm1 hd0 hd1 hh0 hh1 hi0 hi1 hs0 hs1
  obtain ⟨n, rfl⟩ : ∃ n : Nat, year = 1970 + n - 1900 := ⟨(year + 1900 - 1970).toNat, by omega⟩
  obtain ⟨k, rfl⟩ : ∃ k : Nat, mon = k := ⟨mon.toNat, by omega⟩
  have e1 : (1970 + (n : Int) - 1900 + 1900) = 1970 + n := by ring
  rw [e1, Int.toNat_natCast] at hd1
  have hk : k < 12 := by omega
  rw [tm_to_time64_eq]
  have hY := tm_to_time64_years_lower (1970 + n) n 1970 rfl
  have hM := tm_to_time64_months_nonneg (1970 + n) k 0 k
  have hP := tm_to_time64_months_upto (1970 + n) k hk
  have hL := month_days_le (1970 + n) k
  have hyl := time64_to_tm_years_of_sum n 1970
    (tm_to_time64_months (1970 + n) k k 0 0 + (mday - 1))
    (tm_to_time64_years (1970 + n) n 1970 0
      + (tm_to_time64_months (1970 + n) k k 0 0 + (mday - 1))).toNat
    (by omega) (by omega) le_rfl
  have hml := time64_to_tm_months_of_sum (1970 + n) k 0 (mday - 1) 12 (by omega) (by omega)
    (by simpa using (by omega : mday - 1 < month_days (1970 + n) k)) (by omega)
  simp only [zero_add] at hml
  generalize tm_to_time64_years (1970 + n) n 1970 0 = SY at *
  generalize tm_to_time64_months (1970 + n) k k 0 0 = SM at *
  have ht0 : 0 ≤ (SY + SM + (mday - 1)) * 86400 + hour * 3600 + min * 60 + sec := by omega
  have hdiv : Int.tdiv ((SY + SM + (mday - 1)) * 86400 + hour * 3600 + min * 60 + sec) 86400
      = SY + (SM + (mday - 1)) := by
    rw [Int.tdiv_eq_ediv ht0 (by norm_num)]; omega
  have hmod : Int.tmod ((SY + SM + (mday - 1)) * 86400 + hour * 3600 + min * 60 + sec) 86400
      % 2 ^ 64 = hour * 3600 + min * 60 + sec := by
    rw [Int.tmod_eq_emod ht0 (by norm_num)]
    norm_num
    omega
  unfold time64_to_tm
  simp only [hdiv, hmod, hyl, hml]
  rw [toInt_of_range _ (by omega) (by omega), toInt_of_range _ (by omega) (by omega),
    toInt_of_range _ (by omega) (by omega), toInt_of_range _ (by omega) (by omega)]
  congr 1 <;> omega

/-! ## The iteration bounds are never what ends a loop -/

/-- More fuel than the day count does not change the result of the year loop of
`time64_to_tm`. -/
theorem time64_to_tm_years_fuel (fuel : Nat) (days y : Int) (h0 : 0 ≤ days)
    (hf : days.toNat ≤ fuel) :
    time64_to_tm_years fuel days y = time64_to_tm_years days.toNat days y := by
  obtain ⟨n, e1, e2, e3, e4⟩ := time64_to_tm_years_spec days.toNat days y h0 le_rfl
  have h := time64_to_tm_years_of_sum n y _ fuel e2 e3 (by rw [e4]; exact hf)
  rw [e4] at h
  rw [h, ← e1]

/-- More fuel than the number of years to add does not change the result of the year loop
of `tm_to_time64`. -/
theorem tm_to_time64_years_fuel (year : Int) (fuel : Nat) (y d : Int)
    (hf : (year - y).toNat ≤ fuel) :
    tm_to_time64_years year fuel y d = tm_to_time64_years year (year - y).toNat y d := by
  induction fuel generalizing y d with
  | zero =>
    have : (year - y).toNat = 0 := by omega
    rw [this]
  | succ fuel ih =>
    by_cases hlt : y < year
    · obtain ⟨m, hm⟩ : ∃ m, (year - y).toNat = m + 1 := ⟨(year - y).toNat - 1, by omega⟩
      have hm2 : (year - (y + 1)).toNat = m := by omega
      rw [hm]
      simp only [tm_to_time64_years, if_pos hlt]
      rw [ih _ _ (by omega), hm2]
    · have : (year - y).toNat = 0 := by omega
      rw [this]
      simp [tm_to_time64_years, hlt]

/-- More fuel than the number of months to add does not change the result of the month loop
of `tm_to_time64`. -/
theorem tm_to_time64_months_fuel (year mon : Int) (fuel y : Nat) (d : Int)
    (hf : (mon - y).toNat ≤ fuel) :
    tm_to_time64_months year mon fuel y d
      = tm_to_time64_months year mon (mon - y).toNat y d := by
  induction fuel generalizing y d with
  | zero =>
    have : (mon - y).toNat = 0 := by omega
    rw [this]
  | succ fuel ih =>
    by_cases hlt : (y : Int) < mon
    · obtain ⟨m, hm⟩ : ∃ m, (mon - y).toNat = m + 1 := ⟨(mon - y).toNat - 1, by omega⟩
      have hm2 : (mon - ((y + 1 : Nat) : Int)).toNat = m := by push_cast; omega
      rw [hm]
      simp only [tm_to_time64_months, if_pos hlt]
      rw [ih _ _ (by push_cast; omega), hm2]
    · have : (mon - y).toNat = 0 := by omega
      rw [this]
      simp [tm_to_time64_months, hlt]

/-! ## Lemmas on the counter reader -/

/-- The 64 bit value assembled by `rtc_read_lpsrt`, as a sum. -/
theorem shift_or_eq (msb lsb : Nat) (h : lsb < 2 ^ 32) :
    (msb <<< 32) ||| lsb = msb * 2 ^ 32 + lsb := by
  rw [Nat.shiftLeft_eq, Nat.mul_comm, ← Nat.mul_add_lt_is_or h]

theorem rtc_read_lpsrt_lt {σ : Type} (P : RegisterPort σ) (p : snvs_priv) (s : σ) :
    (rtc_read_lpsrt P p s).1 < 2 ^ 64 := by
  unfold rtc_read_lpsrt snvs_readl
  simp only
  rw [shift_or_eq _ _ (Nat.mod_lt _ (by norm_num))]
  have h1 : (P.read32 s (reg_addr p SNVS_LPSRTCMR)).1 % 2 ^ 32 < 2 ^ 32 :=
    Nat.mod_lt _ (by norm_num)
  have h2 : (P.read32 (P.read32 s (reg_addr p SNVS_LPSRTCMR)).2 (reg_addr p SNVS_LPSRTCLR)).1
      % 2 ^ 32 < 2 ^ 32 := Nat.mod_lt _ (by norm_num)
  norm_num at h1 h2 ⊢
  omega

theorem sample_lt {σ : Type} (P : RegisterPort σ) (p : snvs_priv) (s : σ) (k : Nat) :
    sample P p s k < 2 ^ 64 := rtc_read_lpsrt_lt P p _

/-- When the loop condition lets a sample through, in terms of the two 64 bit values. -/
theorem lp_retry_eq_false_iff (a b : Nat) (ha : a < 2 ^ 64) (hb : b < 2 ^ 64) :
    lp_retry a b = false ↔ (b ≤ a ∧ a - b ≤ 320) ∨ (a < b ∧ 2 ^ 64 - 320 ≤ b - a) := by
  unfold lp_retry lp_diff wrapS MAX_RTC_READ_DIFF_CYCLES
  simp only [Bool.or_eq_false_iff, decide_eq_false_iff_not]
  norm_num at ha hb ⊢
  omega

/-- The loop of `rtc_read_lp_counter` when the next `n + 1` samples are all rejected. -/
theorem rtc_read_lp_counter_loop_reject {σ : Type} (P : RegisterPort σ) (p : snvs_priv) (s : σ)
    (n i : Nat)
    (h : ∀ j, j ≤ n → lp_retry (sample P p s (i + j + 1)) (sample P p s (i + j)) = true) :
    rtc_read_lp_counter_loop P p n (sample P p s i) (sample_state P p s (i + 1))
      = (sample P p s (i + n + 1), 0, sample_state P p s (i + n + 2)) := by
  induction n generalizing i with
  | zero =>
    have h0 := h 0 le_rfl
    simp only [add_zero] at h0
    simp only [rtc_read_lp_counter_loop]
    rw [show (rtc_read_lpsrt P p (sample_state P p s (i + 1))).1 = sample P p s (i + 1) from rfl,
      if_pos h0]
    rfl
  | succ n ih =>
    have h0 := h 0 (by omega)
    simp only [add_zero] at h0
    simp only [rtc_read_lp_counter_loop]
    rw [show (rtc_read_lpsrt P p (sample_state P p s (i + 1))).1 = sample P p s (i + 1) from rfl,
      if_pos h0,
      show (rtc_read_lpsrt P p (sample_state P p s (i + 1))).2 = sample_state P p s (i + 1 + 1)
        from rfl,
      ih (i + 1) (fun j hj => by
        have := h (j + 1) (by omega)
        rw [show i + 1 + j + 1 = i + (j + 1) + 1 by omega, show i + 1 + j = i + (j + 1) by omega]
        exact this)]
    rw [show i + 1 + n + 1 = i + (n + 1) + 1 by omega, show i + 1 + n + 2 = i + (n + 1) + 2 by omega]

/-- The loop of `rtc_read_lp_counter` when the sample `i + k + 1` is the first one let through:
the loop stops there, with `timeout` still positive. -/
theorem rtc_read_lp_counter_loop_accept {σ : Type} (P : RegisterPort σ) (p : snvs_priv) (s : σ)
    (n i k : Nat) (hk : k ≤ n)
    (h : ∀ j, j < k → lp_retry (sample P p s (i + j + 1)) (sample P p s (i + j)) = true)
    (hacc : lp_retry (sample P p s (i + k + 1)) (sample P p s (i + k)) = false) :
    rtc_read_lp_counter_loop P p n (sample P p s i) (sample_state P p s (i + 1))
      = (sample P p s (i + k + 1), n - k + 1, sample_state P p s (i + k + 2)) := by
  induction k generalizing i n with
  | zero =>
    simp only [add_zero] at hacc
    cases n with
    | zero =>
      simp only [rtc_read_lp_counter_loop]
      rw [show (rtc_read_lpsrt P p (sample_state P p s (i + 1))).1 = sample P p s (i + 1)
        from rfl, hacc]
      rfl
    | succ n =>
      simp only [rtc_read_lp_counter_loop]
      rw [show (rtc_read_lpsrt P p (sample_state P p s (i + 1))).1 = sample P p s (i + 1)
        from rfl, hacc]
      rfl
  | succ k ih =>
    obtain ⟨n, rfl⟩ : ∃ m, n = m + 1 := ⟨n - 1, by omega⟩
    have h0 := h 0 (by omega)
    simp only [add_zero] at h0
    simp only [rtc_read_lp_counter_loop]
    rw [show (rtc_read_lpsrt P p (sample_state P p s (i + 1))).1 = sample P p s (i + 1) from rfl,
      if_pos h0,
      show (rtc_read_lpsrt P p (sample_state P p s (i + 1))).2 = sample_state P p s (i + 1 + 1)
        from rfl,
      ih n (i + 1) (by omega) (fun j hj => by
        have := h (j + 1) (by omega)
        rw [show i + 1 + j + 1 = i + (j + 1) + 1 by omega, show i + 1 + j = i + (j + 1) by omega]
        exact this) (by
        rw [show i + 1 + k + 1 = i + (k + 1) + 1 by omega, show i + 1 + k = i + (k + 1) by omega]
        exact hacc)]
    rw [show i + 1 + k + 1 = i + (k + 1) + 1 by omega, show i + 1 + k + 2 = i + (k + 1) + 2 by omega,
      show n + 1 - (k + 1) = n - k by omega]

/-- `rtc_read_lp_counter` when each of the 100 samples after the first is rejected. -/
theorem rtc_read_lp_counter_reject {σ : Type} (P : RegisterPort σ) (p : snvs_priv) (s : σ)
    (h : ∀ k, k < 100 → lp_retry (sample P p s (k + 1)) (sample P p s k) = true) :
    rtc_read_lp_counter P p s =
      { value := (sample P p s 100 >>> CNTR_TO_SECS_SH) % 2 ^ 32
        console := ["snvs rtc: timeout getting valid counter read\n"]
        state := sample_state P p s 101 } := by
  have hl := rtc_read_lp_counter_loop_reject P p s 99 0 (fun j hj => by
    have := h j (by omega)
    simpa using this)
  simp only [zero_add] at hl
  have e : rtc_read_lp_counter P p s =
      { value := ((rtc_read_lp_counter_loop P p 99 (sample P p s 0) (sample_state P p s 1)).1
          >>> CNTR_TO_SECS_SH) % 2 ^ 32
        console := if (rtc_read_lp_counter_loop P p 99 (sample P p s 0)
            (sample_state P p s 1)).2.1 = 0
          then ["snvs rtc: timeout getting valid counter read\n"] else []
        state := (rtc_read_lp_counter_loop P p 99 (sample P p s 0)
            (sample_state P p s 1)).2.2 } := rfl
  rw [e, hl]
  simp

/-- `rtc_read_lp_counter` when sample `k + 1` is the first one let through, `k < 100`. -/
theorem rtc_read_lp_counter_accept {σ : Type} (P : RegisterPort σ) (p : snvs_priv) (s : σ)
    (k : Nat) (hk : k < 100)
    (h : ∀ j, j < k → lp_retry (sample P p s (j + 1)) (sample P p s j) = true)
    (hacc : lp_retry (sample P p s (k + 1)) (sample P p s k) = false) :
    rtc_read_lp_counter P p s =
      { value := (sample P p s (k + 1) >>> CNTR_TO_SECS_SH) % 2 ^ 32
        console := []
        state := sample_state P p s (k + 2) } := by
  have hl := rtc_read_lp_counter_loop_accept P p s 99 0 k (by omega) (fun j hj => by
    have := h j hj
    simpa using this) (by simpa using hacc)
  simp only [zero_add] at hl
  have e : rtc_read_lp_counter P p s =
      { value := ((rtc_read_lp_counter_loop P p 99 (sample P p s 0) (sample_state P p s 1)).1
          >>> CNTR_TO_SECS_SH) % 2 ^ 32
        console := if (rtc_read_lp_counter_loop P p 99 (sample P p s 0)
            (sample_state P p s 1)).2.1 = 0
          then ["snvs rtc: timeout getting valid counter read\n"] else []
        state := (rtc_read_lp_counter_loop P p 99 (sample P p s 0)
            (sample_state P p s 1)).2.2 } := rfl
  rw [e, hl]
  simp

/-! ## Lemmas on the simulated ports -/

theorem reads_append (a b : List Access) : reads (a ++ b) = reads a + reads b := by
  induction a with
  | nil => simp [reads]
  | cons x a ih =>
    cases x with
    | rd _ _ => simp [reads, ih]; omega
    | wr _ _ => simp [reads, ih]

theorem writes_append (a b : List Access) : writes (a ++ b) = writes a ++ writes b := by
  induction a with
  | nil => simp [writes]
  | cons x a ih => cases x <;> simp [writes, ih]

/-- One sample through a recording port: the same value and port state as without the
recording, two more reads and no write in the trace. -/
theorem rtc_read_lpsrt_recording {σ : Type} (P : RegisterPort σ) (p : snvs_priv) (s : σ)
    (tr : List Access) :
    (rtc_read_lpsrt (recording P) p (s, tr)).1 = (rtc_read_lpsrt P p s).1 ∧
    (rtc_read_lpsrt (recording P) p (s, tr)).2.1 = (rtc_read_lpsrt P p s).2 ∧
    reads (rtc_read_lpsrt (recording P) p (s, tr)).2.2 = reads tr + 2 ∧
    writes (rtc_read_lpsrt (recording P) p (s, tr)).2.2 = writes tr := by
  simp [rtc_read_lpsrt, snvs_readl, recording, reads_append, writes_append, reads, writes]

theorem sample_state_recording {σ : Type} (P : RegisterPort σ) (p : snvs_priv) (s : σ)
    (tr : List Access) (k : Nat) :
    (sample_state (recording P) p (s, tr) k).1 = sample_state P p s k ∧
    reads (sample_state (recording P) p (s, tr) k).2 = reads tr + 2 * k ∧
    writes (sample_state (recording P) p (s, tr) k).2 = writes tr := by
  induction k with
  | zero => simp [sample_state]
  | succ k ih =>
    obtain ⟨h1, h2, h3⟩ := ih
    have hr := rtc_read_lpsrt_recording P p (sample_state (recording P) p (s, tr) k).1
      (sample_state (recording P) p (s, tr) k).2
    simp only [Prod.mk.eta] at hr
    obtain ⟨_, r2, r3, r4⟩ := hr
    simp only [sample_state]
    refine ⟨by rw [r2, h1], by rw [r3, h2]; omega, by rw [r4, h3]⟩

theorem sample_recording {σ : Type} (P : RegisterPort σ) (p : snvs_priv) (s : σ)
    (tr : List Access) (k : Nat) :
    sample (recording P) p (s, tr) k = sample P p s k := by
  have hr := rtc_read_lpsrt_recording P p (sample_state (recording P) p (s, tr) k).1
    (sample_state (recording P) p (s, tr) k).2
  simp only [Prod.mk.eta] at hr
  unfold sample
  rw [hr.1, (sample_state_recording P p s tr k).1]

/-- The scripted counter delivers the script: sample `k` is `f k` as a 64 bit value. -/
theorem sample_scripted (f : Nat → Nat) (p : snvs_priv) (k : Nat) :
    sample_state (scripted f) p 0 k = 2 * k ∧ sample (scripted f) p 0 k = f k % 2 ^ 64 := by
  have hs : ∀ k, sample_state (scripted f) p 0 k = 2 * k := by
    intro k
    induction k with
    | zero => rfl
    | succ k ih =>
      simp only [sample_state, ih]
      simp [rtc_read_lpsrt, snvs_readl, scripted]
      omega
  refine ⟨hs k, ?_⟩
  unfold sample
  rw [hs k]
  simp only [rtc_read_lpsrt, snvs_readl, scripted]
  rw [shift_or_eq _ _ (Nat.mod_lt _ (by norm_num))]
  have e1 : 2 * k % 2 = 0 := by omega
  have e2 : (2 * k + 1) % 2 = 1 := by omega
  have e3 : (2 * k + 1) / 2 = k := by omega
  have e4 : 2 * k / 2 = k := by omega
  simp only [e1, e2, e3, e4, if_true, if_false, one_ne_zero]
  norm_num
  omega

theorem reg_addr_counter_ne (p : snvs_priv) :
    reg_addr p SNVS_LPSRTCMR ≠ reg_addr p SNVS_LPSRTCLR ∧
    reg_addr p SNVS_LPSRTCMR ≠ reg_addr p SNVS_LPCR ∧
    reg_addr p SNVS_LPSRTCLR ≠ reg_addr p SNVS_LPCR := by
  unfold reg_addr SNVS_LPSRTCMR SNVS_LPSRTCLR SNVS_LPCR
  split <;> norm_num
  omega

/-- The counter registers of a store-and-echo port after `snvs_rtc_set_time`. -/
theorem snvs_rtc_set_time_echo (p : snvs_priv) (s : Nat → Nat) (tm : rtc_time) :
    (snvs_rtc_set_time echo p s tm).2 (reg_addr p SNVS_LPSRTCLR)
      = ((tm_to_time64 tm * 2 ^ 15) % 2 ^ 32).toNat ∧
    (snvs_rtc_set_time echo p s tm).2 (reg_addr p SNVS_LPSRTCMR)
      = ((tm_to_time64 tm / 2 ^ 17) % 2 ^ 32).toNat := by
  obtain ⟨h1, h2, h3⟩ := reg_addr_counter_ne p
  have e1 : ((tm_to_time64 tm * 2 ^ 15) % 2 ^ 32).toNat % 2 ^ 32
      = ((tm_to_time64 tm * 2 ^ 15) % 2 ^ 32).toNat := by
    apply Nat.mod_eq_of_lt
    norm_num
    omega
  have e2 : ((tm_to_time64 tm / 2 ^ 17) % 2 ^ 32).toNat % 2 ^ 32
      = ((tm_to_time64 tm / 2 ^ 17) % 2 ^ 32).toNat := by
    apply Nat.mod_eq_of_lt
    norm_num
    omega
  simp only [snvs_rtc_set_time, snvs_writel, snvs_readl, echo, snvs_tm_to_time64,
    CNTR_TO_SECS_SH]
  simp [h1, h2, h3, h1.symm, e1, e2]
  constructor <;> omega

/-- A store-and-echo port delivers the same sample every time and keeps its state. -/
theorem sample_echo (p : snvs_priv) (s : Nat → Nat) (k : Nat) :
    sample_state echo p s k = s ∧
    sample echo p s k
      = (s (reg_addr p SNVS_LPSRTCMR) % 2 ^ 32) * 2 ^ 32 + s (reg_addr p SNVS_LPSRTCLR) % 2 ^ 32 := by
  have hs : ∀ k, sample_state echo p s k = s := by
    intro k
    induction k with
    | zero => rfl
    | succ k ih => simp only [sample_state, ih]; rfl
  refine ⟨hs k, ?_⟩
  unfold sample
  rw [hs k]
  simp only [rtc_read_lpsrt, snvs_readl, echo]
  rw [shift_or_eq _ _ (Nat.mod_lt _ (by norm_num))]

/-- Reading the counter of a store-and-echo port: the first re-sample is let through. -/
theorem rtc_read_lp_counter_echo (p : snvs_priv) (s : Nat → Nat) :
    rtc_read_lp_counter echo p s =
      { value := (((s (reg_addr p SNVS_LPSRTCMR) % 2 ^ 32) * 2 ^ 32
          + s (reg_addr p SNVS_LPSRTCLR) % 2 ^ 32) >>> CNTR_TO_SECS_SH) % 2 ^ 32
        console := []
        state := s } := by
  have h := rtc_read_lp_counter_accept echo p s 0 (by omega) (fun j hj => by omega) (by
    rw [lp_retry_eq_false_iff _ _ (sample_lt _ _ _ _) (sample_lt _ _ _ _),
      (sample_echo p s 1).2, (sample_echo p s 0).2]
    left; omega)
  rw [h, (sample_echo p s 1).2, (sample_echo p s 2).1]

/-- Writing a time to a store-and-echo port and reading the counter back: the low 32 bits of
the time come back, at the first re-sample. -/
theorem rtc_read_lp_counter_after_set (p : snvs_priv) (s : Nat → Nat) (tm : rtc_time) :
    (rtc_read_lp_counter echo p (snvs_rtc_set_time echo p s tm).2).value
        = ((tm_to_time64 tm) % 2 ^ 32).toNat ∧
    (rtc_read_lp_counter echo p (snvs_rtc_set_time echo p s tm).2).console = [] ∧
    (rtc_read_lp_counter echo p (snvs_rtc_set_time echo p s tm).2).state
        = (snvs_rtc_set_time echo p s tm).2 := by
  rw [rtc_read_lp_counter_echo]
  refine ⟨?_, rfl, rfl⟩
  simp only
  rw [(snvs_rtc_set_time_echo p s tm).1, (snvs_rtc_set_time_echo p s tm).2,
    Nat.shiftRight_eq_div_pow]
  unfold CNTR_TO_SECS_SH
  generalize tm_to_time64 tm = t
  norm_num
  omega

theorem tm_to_time64_years_succ (n : Nat) (y : Int) :
    tm_to_time64_years (y + (n + 1 : Nat)) (n + 1) y 0
      = tm_to_time64_years (y + n) n y 0 + year_days (y + n) := by
  induction n generalizing y with
  | zero =>
    simp [tm_to_time64_years, year_days]
  | succ n ih =>
    have e1 : y + ((n + 1 + 1 : Nat) : Int) = (y + 1) + ((n + 1 : Nat) : Int) := by
      push_cast; ring
    have e2 : y + ((n + 1 : Nat) : Int) = (y + 1) + (n : Int) := by push_cast; ring
    rw [e1, tm_to_time64_years_step _ _ _ (by omega), ih (y + 1), e2,
      tm_to_time64_years_step _ _ _ (by omega)]
    ring

theorem is_leap_iff (y : Int) : is_leap y = true ↔ (4 ∣ y ∧ ¬ 100 ∣ y) ∨ 400 ∣ y := by
  unfold is_leap
  simp only [Bool.or_eq_true, Bool.and_eq_true, beq_iff_eq, bne_iff_ne, ne_eq,
    Int.dvd_iff_tmod_eq_zero]

/-! ## Lemmas for the claims on the counter reader and the register sequence -/

theorem lp_retry_eq_true_iff (a b : Nat) :
    lp_retry a b = true ↔ lp_diff a b < 0 ∨ lp_diff a b > MAX_RTC_READ_DIFF_CYCLES := by
  simp [lp_retry]

/-- Every sample of the falling script is rejected against the one before it. -/
theorem falling_script_rejected (k : Nat) (hk : k < 100) :
    lp_diff (sample (scripted falling_script) mmio_priv 0 (k + 1))
      (sample (scripted falling_script) mmio_priv 0 k) < 0 := by
  rw [(sample_scripted _ _ _).2, (sample_scripted _ _ _).2]
  unfold lp_diff wrapS falling_script
  norm_num
  omega

/-- The time `tm_to_time64` computes is not negative for a date from 1970 on. -/
theorem tm_to_time64_nonneg (tm : rtc_time) (hy : 1970 ≤ tm.tm_year + 1900)
    (hm0 : 0 ≤ tm.tm_mon) (hd0 : 1 ≤ tm.tm_mday) (hh0 : 0 ≤ tm.tm_hour) (hi0 : 0 ≤ tm.tm_min)
    (hs0 : 0 ≤ tm.tm_sec) : 0 ≤ tm_to_time64 tm := by
  obtain ⟨sec, min, hour, mday, mon, year⟩ := tm
  simp only at hy hm0 hd0 hh0 hi0 hs0
  obtain ⟨n, rfl⟩ : ∃ n : Nat, year = 1970 + n - 1900 := ⟨(year + 1900 - 1970).toNat, by omega⟩
  obtain ⟨k, rfl⟩ : ∃ k : Nat, mon = k := ⟨mon.toNat, by omega⟩
  rw [tm_to_time64_eq]
  have hY := tm_to_time64_years_lower (1970 + n) n 1970 rfl
  have hM := tm_to_time64_months_nonneg (1970 + n) k 0 k
  generalize tm_to_time64_years (1970 + n) n 1970 0 = SY at *
  generalize tm_to_time64_months (1970 + n) k k 0 0 = SM at *
  have : 0 ≤ (SY + SM + (mday - 1)) := by omega
  have := Int.mul_nonneg this (by norm_num : (0 : Int) ≤ 86400)
  omega

/-! ## Lemmas on the range in which `tm_to_time64` is exact -/

theorem tm_to_time64_years_upper (year : Int) (n : Nat) (y : Int) :
    0 ≤ tm_to_time64_years year n y 0 ∧ tm_to_time64_years year n y 0 ≤ 366 * (n : Int) := by
  induction n generalizing y with
  | zero => simp [tm_to_time64_years]
  | succ n ih =>
    by_cases h : y < year
    · rw [tm_to_time64_years_step year n y h]
      obtain ⟨h1, h2⟩ := ih (y + 1)
      rcases year_days_cases y with h3 | h3 <;> (push_cast; omega)
    · simp only [tm_to_time64_years, if_neg h]
      constructor
      · exact le_refl _
      · positivity

theorem tm_to_time64_months_upper (year mon : Int) (n y : Nat) :
    tm_to_time64_months year mon n y 0 ≤ 31 * (n : Int) := by
  induction n generalizing y with
  | zero => simp [tm_to_time64_months]
  | succ n ih =>
    by_cases h : (y : Int) < mon
    · rw [tm_to_time64_months_step year mon n y h]
      have := ih (y + 1)
      have := month_days_le year y
      push_cast
      omega
    · simp only [tm_to_time64_months, if_neg h]
      positivity

/-- On the inputs of `tm_to_time64_in_range` the result of `tm_to_time64`, and each of the
`time64_t` sums on the way to it, is far inside the signed 64 bit range. -/
theorem tm_to_time64_fits (tm : rtc_time) (h : tm_to_time64_in_range tm) :
    -(2 ^ 62) < tm_to_time64 tm ∧ tm_to_time64 tm < 2 ^ 62 := by
  obtain ⟨sec, min, hour, mday, mon, year⟩ := tm
  unfold tm_to_time64_in_range int_range at h
  simp only at h
  unfold tm_to_time64
  simp only
  have hY := tm_to_time64_years_upper (year + 1900) (year + 1900 - 1970).toNat 1970
  have hM := tm_to_time64_months_upper (year + 1900) mon mon.toNat 0
  have hM0 := tm_to_time64_months_nonneg (year + 1900) mon.toNat 0 mon
  rw [tm_to_time64_months_acc]
  generalize tm_to_time64_years (year + 1900) (year + 1900 - 1970).toNat 1970 0 = SY at *
  generalize tm_to_time64_months (year + 1900) mon mon.toNat 0 0 = SM at *
  have hn : ((year + 1900 - 1970).toNat : Int) ≤ 2147483647 := by omega
  have hk : ((mon.toNat : Nat) : Int) ≤ 12 := by omega
  norm_num
  omega

/-- Every time `0 ≤ t < 2 ^ 49` is the value `tm_to_time64` computes for an input in its
range, the calendar time `time64_to_tm t`. -/
theorem time64_to_tm_in_range (t : Int) (h0 : 0 ≤ t) (h49 : t < 2 ^ 49) :
    tm_to_time64_in_range (time64_to_tm t) ∧ tm_to_time64 (time64_to_tm t) = t := by
  refine ⟨?_, tm_to_time64_time64_to_tm t h0⟩
  obtain ⟨n, k, d, hk, hd, hdm, e, hs⟩ := time64_to_tm_fields t h0
  have hY := tm_to_time64_years_lower (1970 + n) n 1970 rfl
  have hM := tm_to_time64_months_nonneg (1970 + n) k 0 k
  have hL := month_days_le (1970 + n) k
  rw [e]
  unfold tm_to_time64_in_range int_range
  simp only
  norm_num at h49
  omega

/-- The four writes of `snvs_rtc_set_time`, with the values as the embedding computes them
(the counter words are those of the C code where `tm_to_time64` is exact). -/
theorem snvs_rtc_set_time_writes {σ : Type} (P : RegisterPort σ) (p : snvs_priv) (s : σ)
    (tm : rtc_time) :
    ∃ x y : Nat,
      writes (snvs_rtc_set_time (recording P) p (s, []) tm).2.2
        = [(reg_addr p SNVS_LPCR, (x &&& not32 SNVS_LPCR_SRTC_ENV) % 2 ^ 32),
           (reg_addr p SNVS_LPSRTCLR, ((tm_to_time64 tm * 2 ^ 15) % 2 ^ 32).toNat % 2 ^ 32),
           (reg_addr p SNVS_LPSRTCMR, ((tm_to_time64 tm / 2 ^ 17) % 2 ^ 32).toNat % 2 ^ 32),
           (reg_addr p SNVS_LPCR, (y ||| SNVS_LPCR_SRTC_ENV) % 2 ^ 32)] :=
  ⟨_, _, rfl⟩

/-! ## The claims -/

/-- C1: round trip epoch → calendar → epoch.  For every time `E ≥ 0` whose calendar year fits
the `int` year variable of `time64_to_tm`, `tm_to_time64 (time64_to_tm E) = E`; every
`E < 2 ^ 32` (every value the counter reader returns) is such a time, its year being at most
2106. -/
theorem round_trip_epoch (E : Int) (h0 : 0 ≤ E) :
    ((time64_to_tm E).tm_year + 1900 ≤ 2147483647 → tm_to_time64 (time64_to_tm E) = E) ∧
    (E < 2 ^ 32 →
      (time64_to_tm E).tm_year + 1900 ≤ 2106 ∧ tm_to_time64 (time64_to_tm E) = E) := by
  have hrt := tm_to_time64_time64_to_tm E h0
  refine ⟨fun _ => hrt, fun h32 => ⟨?_, hrt⟩⟩
  have := (time64_to_tm_year_le E h0).2
  norm_num at h32
  omega

theorem round_trip_epoch_witness :
    (time64_to_tm 4294967295).tm_year + 1900 ≤ 2106 ∧
      tm_to_time64 (time64_to_tm 4294967295) = 4294967295 :=
  (round_trip_epoch 4294967295 (by decide)).2 (by decide)

/-- C2: round trip calendar → epoch → calendar.  For every calendar time with year
(`tm_year + 1900`) from 1970 on and inside the `int` range, month index in its valid range
`0..11`, day between 1 and the length of that month in that year, hour `0..23`, minute
`0..59` and second `0..59`, `time64_to_tm (tm_to_time64 C)` is `C`. -/
theorem round_trip_calendar (tm : rtc_time) (hy : 1970 ≤ tm.tm_year + 1900)
    (_hy1 : tm.tm_year + 1900 ≤ 2147483647)
    (hm0 : 0 ≤ tm.tm_mon) (hm1 : tm.tm_mon ≤ 11) (hd0 : 1 ≤ tm.tm_mday)
    (hd1 : tm.tm_mday ≤ month_days (tm.tm_year + 1900) tm.tm_mon.toNat)
    (hh0 : 0 ≤ tm.tm_hour) (hh1 : tm.tm_hour ≤ 23) (hi0 : 0 ≤ tm.tm_min) (hi1 : tm.tm_min ≤ 59)
    (hs0 : 0 ≤ tm.tm_sec) (hs1 : tm.tm_sec ≤ 59) :
    time64_to_tm (tm_to_time64 tm) = tm :=
  time64_to_tm_tm_to_time64 tm hy hm0 hm1 hd0 hd1 hh0 hh1 hi0 hi1 hs0 hs1

theorem round_trip_calendar_witness :
    time64_to_tm (tm_to_time64 { tm_sec := 59, tm_min := 59, tm_hour := 23, tm_mday := 29,
                                 tm_mon := 1, tm_year := 124 })
      = { tm_sec := 59, tm_min := 59, tm_hour := 23, tm_mday := 29, tm_mon := 1,
          tm_year := 124 } :=
  round_trip_calendar _ (by decide) (by decide) (by decide) (by decide) (by decide) (by decide)
    (by decide) (by decide) (by decide) (by decide) (by decide) (by decide)

/-- C8, as stated, fails: for the epoch of 2024-02-29T00:00:00 `time64_to_tm` stores neither
month 2 nor year 2024. -/
theorem leap_day_fields_not_absolute :
    (time64_to_tm 1709164800).tm_mon ≠ 2 ∧ (time64_to_tm 1709164800).tm_year ≠ 2024 := by
  decide

/-- C8, amended: for the epoch of 2024-02-29T00:00:00 `time64_to_tm` yields day 29, month
index 1 (months are counted `0..11`) and year field 124 (years since 1900); and for every
time from the epoch on the month index is in `0..11` and the year field is at least 70. -/
theorem leap_day_decoding :
    time64_to_tm 1709164800
      = { tm_sec := 0, tm_min := 0, tm_hour := 0, tm_mday := 29, tm_mon := 1, tm_year := 124 } ∧
    ∀ E : Nat, 0 ≤ (time64_to_tm E).tm_mon ∧ (time64_to_tm E).tm_mon ≤ 11 ∧
      70 ≤ (time64_to_tm E).tm_year := by
  refine ⟨by decide, fun E => ?_⟩
  obtain ⟨n, k, d, hk, _, _, e, _⟩ := time64_to_tm_fields E (by omega)
  rw [e]
  simp only
  omega

/-- C9, as stated, fails: for 29 February 2023 `tm_to_time64` produces the epoch value of
2023-03-01. -/
theorem invalid_leap_day_normalised :
    tm_to_time64 { tm_sec := 0, tm_min := 0, tm_hour := 0, tm_mday := 29, tm_mon := 1,
                   tm_year := 123 } = 1677628800 ∧
    tm_to_time64 { tm_sec := 0, tm_min := 0, tm_hour := 0, tm_mday := 1, tm_mon := 2,
                   tm_year := 123 } = 1677628800 ∧
    time64_to_tm 1677628800
      = { tm_sec := 0, tm_min := 0, tm_hour := 0, tm_mday := 1, tm_mon := 2, tm_year := 123 } := by
  decide

/-- C9, amended: `tm_to_time64` for 29 February 2024 gives the epoch of 2024-02-29; it does
not validate the day, and for 29 February of a year that is not a leap year it gives the
value it gives for 1 March of that year. -/
theorem invalid_leap_day_encoding :
    tm_to_time64 { tm_sec := 0, tm_min := 0, tm_hour := 0, tm_mday := 29, tm_mon := 1,
                   tm_year := 124 } = 1709164800 ∧
    ∀ (y sec min hour : Int), is_leap (y + 1900) = false →
      tm_to_time64 { tm_sec := sec, tm_min := min, tm_hour := hour, tm_mday := 29, tm_mon := 1,
                     tm_year := y }
        = tm_to_time64 { tm_sec := sec, tm_min := min, tm_hour := hour, tm_mday := 1,
                         tm_mon := 2, tm_year := y } := by
  refine ⟨by decide, fun y sec min hour hl => ?_⟩
  simp [tm_to_time64, tm_to_time64_months, mdays_at, mdays, hl]

theorem invalid_leap_day_encoding_witness :
    tm_to_time64 { tm_sec := 0, tm_min := 0, tm_hour := 0, tm_mday := 29, tm_mon := 1,
                   tm_year := 123 }
      = tm_to_time64 { tm_sec := 0, tm_min := 0, tm_hour := 0, tm_mday := 1, tm_mon := 2,
                       tm_year := 123 } :=
  invalid_leap_day_encoding.2 123 0 0 0 (by decide)

/-- C10: the leap-year rule.  `is_leap y` holds exactly when `y` is divisible by 4 and not
by 100, or divisible by 400; 1900 and 2100 are not leap years and 2000 is; and both codec
directions follow this test: encoding, a year from 1970 on counts 366 days if it is a leap
year and 365 otherwise, and its February 29 days if it is a leap year and 28 otherwise;
decoding, 365 days after 1 January comes 31 December of a leap year and 1 January of the
next year otherwise, and 28 days after 1 February comes 29 February of a leap year and
1 March otherwise. -/
theorem is_leap_rule :
    (∀ y : Int, is_leap y = true ↔ (4 ∣ y ∧ ¬ 100 ∣ y) ∨ 400 ∣ y) ∧
    is_leap 1900 = false ∧ is_leap 2100 = false ∧ is_leap 2000 = true ∧
    (∀ n : Nat,
      tm_to_time64 { tm_sec := 0, tm_min := 0, tm_hour := 0, tm_mday := 1, tm_mon := 0,
                     tm_year := 71 + n }
        - tm_to_time64 { tm_sec := 0, tm_min := 0, tm_hour := 0, tm_mday := 1, tm_mon := 0,
                         tm_year := 70 + n }
        = 86400 * (if is_leap (1970 + n) then 366 else 365)) ∧
    (∀ n : Nat,
      tm_to_time64 { tm_sec := 0, tm_min := 0, tm_hour := 0, tm_mday := 1, tm_mon := 2,
                     tm_year := 70 + n }
        - tm_to_time64 { tm_sec := 0, tm_min := 0, tm_hour := 0, tm_mday := 1, tm_mon := 1,
                         tm_year := 70 + n }
        = 86400 * (if is_leap (1970 + n) then 29 else 28)) ∧
    (∀ n : Nat,
      time64_to_tm (tm_to_time64 { tm_sec := 0, tm_min := 0, tm_hour := 0, tm_mday := 1,
                                   tm_mon := 0, tm_year := 70 + n } + 86400 * 365)
        = if is_leap (1970 + n)
          then { tm_sec := 0, tm_min := 0, tm_hour := 0, tm_mday := 31, tm_mon := 11,
                 tm_year := 70 + n }
          else { tm_sec := 0, tm_min := 0, tm_hour := 0, tm_mday := 1, tm_mon := 0,
                 tm_year := 71 + n }) ∧
    (∀ n : Nat,
      time64_to_tm (tm_to_time64 { tm_sec := 0, tm_min := 0, tm_hour := 0, tm_mday := 1,
                                   tm_mon := 1, tm_year := 70 + n } + 86400 * 28)
        = if is_leap (1970 + n)
          then { tm_sec := 0, tm_min := 0, tm_hour := 0, tm_mday := 29, tm_mon := 1,
                 tm_year := 70 + n }
          else { tm_sec := 0, tm_min := 0, tm_hour := 0, tm_mday := 1, tm_mon := 2,
                 tm_year := 70 + n }) := by
  have ey : ∀ n : Nat, (70 + (n : Int)) = 1970 + n - 1900 := fun n => by ring
  have ey1 : ∀ n : Nat, (71 + (n : Int)) = 1970 + ((n + 1 : Nat) : Int) - 1900 :=
    fun n => by push_cast; ring
  have hyear : ∀ (n : Nat) (k : Nat) (mday : Int),
      tm_to_time64 { tm_sec := 0, tm_min := 0, tm_hour := 0, tm_mday := mday, tm_mon := k,
                     tm_year := 70 + n }
        = (tm_to_time64_years (1970 + n) n 1970 0 + tm_to_time64_months (1970 + n) k k 0 0
            + (mday - 1)) * 86400 := by
    intro n k mday
    rw [ey, tm_to_time64_eq]
    ring
  have hnext : ∀ n : Nat,
      tm_to_time64 { tm_sec := 0, tm_min := 0, tm_hour := 0, tm_mday := 1, tm_mon := 0,
                     tm_year := 71 + n }
        = (tm_to_time64_years (1970 + n) n 1970 0 + year_days (1970 + n)) * 86400 := by
    intro n
    rw [ey1, show ((0 : Int)) = ((0 : Nat) : Int) from rfl, tm_to_time64_eq,
      tm_to_time64_years_succ]
    simp [tm_to_time64_months]
  have hm0 : ∀ y : Int, tm_to_time64_months y 0 0 0 0 = 0 := fun y => rfl
  have hm1 : ∀ y : Int, tm_to_time64_months y 1 1 0 0 = 31 := fun y => by
    simp [tm_to_time64_months, mdays_at, mdays]
  have hm2 : ∀ y : Int, tm_to_time64_months y 2 2 0 0
      = 31 + (if is_leap y then 29 else 28) := fun y => by
    cases h : is_leap y <;> simp [tm_to_time64_months, mdays_at, mdays, h]
  have hm11 : ∀ y : Int, tm_to_time64_months y 11 11 0 0
      = (if is_leap y then 335 else 334) := fun y => by
    cases h : is_leap y <;> simp [tm_to_time64_months, mdays_at, mdays, h]
  refine ⟨is_leap_iff, by decide, by decide, by decide, ?_, ?_, ?_, ?_⟩
  · intro n
    have h1 := hyear n 0 1
    simp only [Nat.cast_zero] at h1
    rw [hnext, h1, hm0]
    unfold year_days
    split <;> ring
  · intro n
    have h1 := hyear n 1 1
    have h2 := hyear n 2 1
    simp only [Nat.cast_one, Nat.cast_ofNat] at h1 h2
    rw [h1, h2]
    have := hm1 (1970 + n)
    have := hm2 (1970 + n)
    simp only [Nat.cast_one, Nat.cast_ofNat] at *
    split <;> simp_all <;> ring
  · intro n
    have h1 := hyear n 0 1
    simp only [Nat.cast_zero] at h1
    by_cases hl : is_leap (1970 + n) = true
    · rw [if_pos hl]
      have h2 := hyear n 11 31
      have h3 := hm11 (1970 + n)
      simp only [Nat.cast_ofNat, hl, if_true] at h2 h3
      have e : tm_to_time64 { tm_sec := 0, tm_min := 0, tm_hour := 0, tm_mday := 1, tm_mon := 0,
                              tm_year := 70 + n } + 86400 * 365
          = tm_to_time64 { tm_sec := 0, tm_min := 0, tm_hour := 0, tm_mday := 31, tm_mon := 11,
                           tm_year := 70 + n } := by
        rw [h1, h2, h3, hm0]; ring
      rw [e]
      apply time64_to_tm_tm_to_time64 <;> simp [month_days, mdays_at, mdays]
      omega
    · rw [if_neg hl]
      have e : tm_to_time64 { tm_sec := 0, tm_min := 0, tm_hour := 0, tm_mday := 1, tm_mon := 0,
                              tm_year := 70 + n } + 86400 * 365
          = tm_to_time64 { tm_sec := 0, tm_min := 0, tm_hour := 0, tm_mday := 1, tm_mon := 0,
                           tm_year := 71 + n } := by
        rw [h1, hnext, hm0]
        simp only [year_days, hl]
        simp
        ring
      rw [e]
      apply time64_to_tm_tm_to_time64 <;> simp [month_days, mdays_at, mdays]
      omega
  · intro n
    have h1 := hyear n 1 1
    have h3 := hm1 (1970 + n)
    have h4 := hm2 (1970 + n)
    simp only [Nat.cast_one, Nat.cast_ofNat] at h1 h3 h4
    by_cases hl : is_leap (1970 + n) = true
    · rw [if_pos hl]
      have h2 := hyear n 1 29
      simp only [Nat.cast_one] at h2
      have e : tm_to_time64 { tm_sec := 0, tm_min := 0, tm_hour := 0, tm_mday := 1, tm_mon := 1,
                              tm_year := 70 + n } + 86400 * 28
          = tm_to_time64 { tm_sec := 0, tm_min := 0, tm_hour := 0, tm_mday := 29, tm_mon := 1,
                           tm_year := 70 + n } := by
        rw [h1, h2]; ring
      rw [e]
      have hl2 : is_leap (70 + (n : Int) + 1900) = true := by
        rw [show (70 + (n : Int) + 1900) = 1970 + n by ring]; exact hl
      apply time64_to_tm_tm_to_time64 <;> simp [month_days, mdays_at, mdays, hl2]
      omega
    · rw [if_neg hl]
      have h2 := hyear n 2 1
      simp only [Nat.cast_ofNat] at h2
      have e : tm_to_time64 { tm_sec := 0, tm_min := 0, tm_hour := 0, tm_mday := 1, tm_mon := 1,
                              tm_year := 70 + n } + 86400 * 28
          = tm_to_time64 { tm_sec := 0, tm_min := 0, tm_hour := 0, tm_mday := 1, tm_mon := 2,
                           tm_year := 70 + n } := by
        rw [h1, h2, h3, h4]
        simp only [hl]
        simp
        ring
      rw [e]
      apply time64_to_tm_tm_to_time64 <;> simp [month_days, mdays_at, mdays]
      omega

/-- C3: write then read through a store-and-echo port.  For every register file, every
driver instance and every valid calendar time (year from 1970 on, month index `0..11`, day
inside the month, time of day in range) whose epoch seconds are below `2 ^ 32`,
`snvs_rtc_set_time` followed by `snvs_rtc_read_time` yields exactly that calendar time; both
return 0 and the read prints no timeout message. -/
theorem set_time_then_read_time (p : snvs_priv) (s : Nat → Nat) (tm : rtc_time)
    (hy : 1970 ≤ tm.tm_year + 1900) (hm0 : 0 ≤ tm.tm_mon) (hm1 : tm.tm_mon ≤ 11)
    (hd0 : 1 ≤ tm.tm_mday)
    (hd1 : tm.tm_mday ≤ month_days (tm.tm_year + 1900) tm.tm_mon.toNat)
    (hh0 : 0 ≤ tm.tm_hour) (hh1 : tm.tm_hour ≤ 23) (hi0 : 0 ≤ tm.tm_min) (hi1 : tm.tm_min ≤ 59)
    (hs0 : 0 ≤ tm.tm_sec) (hs1 : tm.tm_sec ≤ 59) (h32 : tm_to_time64 tm < 2 ^ 32) :
    (snvs_rtc_set_time echo p s tm).1 = 0 ∧
    (snvs_rtc_read_time echo p (snvs_rtc_set_time echo p s tm).2).ret = 0 ∧
    (snvs_rtc_read_time echo p (snvs_rtc_set_time echo p s tm).2).tm = tm ∧
    (snvs_rtc_read_time echo p (snvs_rtc_set_time echo p s tm).2).console = [] := by
  obtain ⟨e1, e2, _⟩ := rtc_read_lp_counter_after_set p s tm
  have h0 := tm_to_time64_nonneg tm hy hm0 hd0 hh0 hi0 hs0
  refine ⟨rfl, rfl, ?_, e2⟩
  show snvs_time64_to_tm
    (((rtc_read_lp_counter echo p (snvs_rtc_set_time echo p s tm).2).value : Nat) : Int) = tm
  rw [e1]
  have e : (((tm_to_time64 tm % 2 ^ 32).toNat : Nat) : Int) = tm_to_time64 tm := by
    norm_num at h32 ⊢
    omega
  rw [e]
  exact time64_to_tm_tm_to_time64 tm hy hm0 hm1 hd0 hd1 hh0 hh1 hi0 hi1 hs0 hs1

theorem set_time_then_read_time_witness :
    tm_to_time64 { tm_sec := 0, tm_min := 0, tm_hour := 0, tm_mday := 1, tm_mon := 0,
                   tm_year := 125 } = 1735689600 ∧
    (snvs_rtc_read_time echo mmio_priv (snvs_rtc_set_time echo mmio_priv (fun _ => 0)
        { tm_sec := 0, tm_min := 0, tm_hour := 0, tm_mday := 1, tm_mon := 0,
          tm_year := 125 }).2).tm
      = { tm_sec := 0, tm_min := 0, tm_hour := 0, tm_mday := 1, tm_mon := 0, tm_year := 125 } ∧
    (snvs_rtc_read_time echo mmio_priv (snvs_rtc_set_time echo mmio_priv (fun _ => 0)
        { tm_sec := 0, tm_min := 0, tm_hour := 0, tm_mday := 1, tm_mon := 0,
          tm_year := 125 }).2).console = [] :=
  ⟨by decide,
   (set_time_then_read_time mmio_priv (fun _ => 0) _ (by decide) (by decide) (by decide)
     (by decide) (by decide) (by decide) (by decide) (by decide) (by decide) (by decide)
     (by decide) (by decide)).2.2⟩

/-- C4: write ordering.  For every port, port state, driver instance and calendar input,
`snvs_rtc_set_time` on a recording port performs exactly four writes, in this order: `LPCR`
with bit 0 clear, `LPSRTCLR`, `LPSRTCMR`, `LPCR` with bit 0 set; it returns 0, and the
recording does not change what the port sees.  The statement is about the order and the
control bit only; it leaves the two counter words open. -/
theorem set_time_write_order {σ : Type} (P : RegisterPort σ) (p : snvs_priv) (s : σ)
    (tm : rtc_time) :
    ∃ c0 c1 lo hi : Nat,
      writes (snvs_rtc_set_time (recording P) p (s, []) tm).2.2
        = [(reg_addr p SNVS_LPCR, c0),
           (reg_addr p SNVS_LPSRTCLR, lo),
           (reg_addr p SNVS_LPSRTCMR, hi),
           (reg_addr p SNVS_LPCR, c1)] ∧
      c0 % 2 = 0 ∧ c1 % 2 = 1 ∧
      (snvs_rtc_set_time (recording P) p (s, []) tm).1 = 0 ∧
      (snvs_rtc_set_time (recording P) p (s, []) tm).2.1 = (snvs_rtc_set_time P p s tm).2 := by
  obtain ⟨x, y, hw⟩ := snvs_rtc_set_time_writes P p s tm
  refine ⟨_, _, _, _, hw, ?_, ?_, rfl, rfl⟩
  · have := @Nat.and_mod_two_eq_one x (not32 SNVS_LPCR_SRTC_ENV)
    have hn : not32 SNVS_LPCR_SRTC_ENV % 2 = 0 := by decide
    omega
  · have := @Nat.or_mod_two_eq_one y SNVS_LPCR_SRTC_ENV
    have hn : SNVS_LPCR_SRTC_ENV % 2 = 1 := by decide
    omega

/-- C5: a counter that never stabilises.  If each of the first 100 pairs of consecutive
samples the port delivers has a signed difference that is negative or above the tolerance,
`rtc_read_lp_counter` takes exactly 101 samples (202 register reads, no write), prints the
timeout message and returns the last sample shifted right by 15 bits, as an `u32`. -/
theorem never_stable_times_out {σ : Type} (P : RegisterPort σ) (p : snvs_priv) (s : σ)
    (h : ∀ k, k < 100 →
      lp_diff (sample P p s (k + 1)) (sample P p s k) < 0 ∨
      lp_diff (sample P p s (k + 1)) (sample P p s k) > MAX_RTC_READ_DIFF_CYCLES) :
    (rtc_read_lp_counter (recording P) p (s, [])).value
      = (sample P p s 100 >>> 15) % 2 ^ 32 ∧
    (rtc_read_lp_counter (recording P) p (s, [])).console
      = ["snvs rtc: timeout getting valid counter read\n"] ∧
    (rtc_read_lp_counter (recording P) p (s, [])).state.1 = sample_state P p s 101 ∧
    reads (rtc_read_lp_counter (recording P) p (s, [])).state.2 = 202 ∧
    writes (rtc_read_lp_counter (recording P) p (s, [])).state.2 = [] := by
  have hr := rtc_read_lp_counter_reject (recording P) p (s, []) (fun k hk => by
    rw [sample_recording, sample_recording, lp_retry_eq_true_iff]
    exact h k hk)
  obtain ⟨h1, h2, h3⟩ := sample_state_recording P p s [] 101
  rw [hr]
  refine ⟨by rw [sample_recording]; rfl, rfl, h1, h2, h3⟩

theorem never_stable_times_out_witness :
    (rtc_read_lp_counter (recording (scripted falling_script)) mmio_priv (0, [])).console
      = ["snvs rtc: timeout getting valid counter read\n"] ∧
    reads (rtc_read_lp_counter (recording (scripted falling_script)) mmio_priv (0, [])).state.2
      = 202 :=
  have h := never_stable_times_out (scripted falling_script) mmio_priv 0
    (fun k hk => Or.inl (falling_script_rejected k hk))
  ⟨h.2.1, h.2.2.2.1⟩

/-- C7, as stated, fails: with the falling script every one of the 100 re-samples is
rejected and the timeout message is printed, yet `snvs_rtc_read_time` returns 0 (success)
together with a calendar time. -/
theorem read_timeout_returns_success :
    (∀ k, k < 100 →
      lp_diff (sample (scripted falling_script) mmio_priv 0 (k + 1))
        (sample (scripted falling_script) mmio_priv 0 k) < 0) ∧
    (snvs_rtc_read_time (scripted falling_script) mmio_priv 0).console
      = ["snvs rtc: timeout getting valid counter read\n"] ∧
    (snvs_rtc_read_time (scripted falling_script) mmio_priv 0).ret = 0 := by
  refine ⟨falling_script_rejected, ?_, rfl⟩
  have hr := rtc_read_lp_counter_reject (scripted falling_script) mmio_priv 0 (fun k hk => by
    rw [lp_retry_eq_true_iff]
    exact Or.inl (falling_script_rejected k hk))
  show (rtc_read_lp_counter (scripted falling_script) mmio_priv 0).console = _
  rw [hr]

/-- C7, amended: `snvs_rtc_read_time` has no failure path.  It returns 0 for every port and
port state; when each of the 100 re-samples is rejected it prints the timeout message and
still delivers the calendar time decoded from the last sample. -/
theorem read_time_returns_zero {σ : Type} (P : RegisterPort σ) (p : snvs_priv) (s : σ) :
    (snvs_rtc_read_time P p s).ret = 0 ∧
    ((∀ k, k < 100 →
        lp_diff (sample P p s (k + 1)) (sample P p s k) < 0 ∨
        lp_diff (sample P p s (k + 1)) (sample P p s k) > MAX_RTC_READ_DIFF_CYCLES) →
      (snvs_rtc_read_time P p s).console = ["snvs rtc: timeout getting valid counter read\n"] ∧
      (snvs_rtc_read_time P p s).tm
        = time64_to_tm (((sample P p s 100 >>> 15) % 2 ^ 32 : Nat) : Int)) := by
  refine ⟨rfl, fun h => ?_⟩
  have hr := rtc_read_lp_counter_reject P p s (fun k hk => by
    rw [lp_retry_eq_true_iff]
    exact h k hk)
  have e : snvs_rtc_read_time P p s =
      { ret := 0, tm := snvs_time64_to_tm (((rtc_read_lp_counter P p s).value : Nat) : Int),
        console := (rtc_read_lp_counter P p s).console,
        state := (rtc_read_lp_counter P p s).state } := rfl
  rw [e, hr]
  exact ⟨rfl, rfl⟩

theorem read_time_returns_zero_witness :
    (snvs_rtc_read_time (scripted falling_script) mmio_priv 0).tm
      = time64_to_tm (((sample (scripted falling_script) mmio_priv 0 100 >>> 15) % 2 ^ 32 : Nat)
          : Int) :=
  ((read_time_returns_zero (scripted falling_script) mmio_priv 0).2
    (fun k hk => Or.inl (falling_script_rejected k hk))).2

/-- The samples of the torn script, for the indices the reader can reach. -/
theorem sample_torn_script (k : Nat) (hk : k ≤ 101) :
    sample (scripted torn_script) mmio_priv 0 k = torn_script k := by
  rw [(sample_scripted _ _ _).2]
  apply Nat.mod_eq_of_lt
  unfold torn_script
  split
  · norm_num
  · split
    · norm_num
    · norm_num; omega

/-- C6, as stated, fails at the top of the 64 bit range.  In the torn script every sample
rises by one tick except sample 1, which is lower than sample 0; the reader accepts that torn
sample against the sample before it, because the 64 bit difference wraps to 320: it returns
the torn sample's seconds without a timeout, and that value belongs to no sample that lies
`0..320` ticks above its predecessor. -/
theorem torn_read_accepted_at_wrap :
    sample (scripted torn_script) mmio_priv 0 1 < sample (scripted torn_script) mmio_priv 0 0 ∧
    sample (scripted torn_script) mmio_priv 0 0 < sample (scripted torn_script) mmio_priv 0 2 ∧
    (∀ k, 1 ≤ k → k ≤ 100 → k ≠ 1 → k ≠ 2 →
      sample (scripted torn_script) mmio_priv 0 (k - 1)
        < sample (scripted torn_script) mmio_priv 0 k ∧
      sample (scripted torn_script) mmio_priv 0 k
        ≤ sample (scripted torn_script) mmio_priv 0 (k - 1) + 320) ∧
    (rtc_read_lp_counter (scripted torn_script) mmio_priv 0).console = [] ∧
    (rtc_read_lp_counter (scripted torn_script) mmio_priv 0).value
      = (sample (scripted torn_script) mmio_priv 0 1 >>> 15) % 2 ^ 32 ∧
    ¬ ∃ k, 1 ≤ k ∧ k ≤ 100 ∧
      (rtc_read_lp_counter (scripted torn_script) mmio_priv 0).value
        = (sample (scripted torn_script) mmio_priv 0 k >>> 15) % 2 ^ 32 ∧
      sample (scripted torn_script) mmio_priv 0 (k - 1)
        ≤ sample (scripted torn_script) mmio_priv 0 k ∧
      sample (scripted torn_script) mmio_priv 0 k
        - sample (scripted torn_script) mmio_priv 0 (k - 1) ≤ 320 := by
  have h0 : sample (scripted torn_script) mmio_priv 0 0 = 2 ^ 64 - 320 :=
    sample_torn_script 0 (by omega)
  have h1 : sample (scripted torn_script) mmio_priv 0 1 = 0 := sample_torn_script 1 (by omega)
  have hk : ∀ k, 2 ≤ k → k ≤ 101 →
      sample (scripted torn_script) mmio_priv 0 k = 2 ^ 64 - 321 + k := by
    intro k h2 h101
    rw [sample_torn_script k h101]
    unfold torn_script
    rw [if_neg (by omega), if_neg (by omega)]
  have hr := rtc_read_lp_counter_accept (scripted torn_script) mmio_priv 0 0 (by omega)
    (fun j hj => by omega) (by
      rw [lp_retry_eq_false_iff _ _ (sample_lt _ _ _ _) (sample_lt _ _ _ _), h0, h1]
      right
      norm_num)
  have hv : (rtc_read_lp_counter (scripted torn_script) mmio_priv 0).value = 0 := by
    rw [hr]
    simp only [zero_add]
    rw [h1]
    rfl
  refine ⟨by rw [h0, h1]; norm_num, by rw [h0, hk 2 le_rfl (by omega)]; norm_num, ?_,
    by rw [hr], by rw [hv, h1]; rfl, ?_⟩
  · intro k k1 k100 kne1 kne2
    rw [hk k (by omega) (by omega), hk (k - 1) (by omega) (by omega)]
    omega
  · rintro ⟨k, k1, k100, e, hle, hstep⟩
    rw [hv] at e
    by_cases hk1 : k = 1
    · subst hk1
      rw [h0, h1] at hle
      norm_num at hle
    · rw [hk k (by omega) (by omega), Nat.shiftRight_eq_div_pow] at e
      norm_num at e
      omega

/-- C6, amended: recovery from a single torn read.  Among the samples the reader can reach,
let sample `j` be the one torn read: it is lower than its predecessor, by less than
`2 ^ 64 - 320` ticks; the sample after it lies above that predecessor; and every other
sample lies `1..320` ticks above the sample before it.  Then `rtc_read_lp_counter` prints no
timeout message and returns the seconds of a sample `k ≤ 3` that is not the torn one and lies
`0..320` ticks above its predecessor. -/
theorem torn_read_recovery {σ : Type} (P : RegisterPort σ) (p : snvs_priv) (s : σ) (j : Nat)
    (hj : 1 ≤ j)
    (htorn : sample P p s j < sample P p s (j - 1))
    (hgap : sample P p s (j - 1) - sample P p s j < 2 ^ 64 - 320)
    (hnext : sample P p s (j - 1) < sample P p s (j + 1))
    (hinc : ∀ k, 1 ≤ k → k ≤ 100 → k ≠ j → k ≠ j + 1 →
      sample P p s (k - 1) < sample P p s k ∧ sample P p s k ≤ sample P p s (k - 1) + 320) :
    (rtc_read_lp_counter P p s).console = [] ∧
    ∃ k, 1 ≤ k ∧ k ≤ 3 ∧ k ≠ j ∧
      (rtc_read_lp_counter P p s).value = (sample P p s k >>> 15) % 2 ^ 32 ∧
      sample P p s (k - 1) ≤ sample P p s k ∧
      sample P p s k - sample P p s (k - 1) ≤ 320 := by
  have hlt := sample_lt P p s
  have hiff := fun a b => lp_retry_eq_false_iff (sample P p s a) (sample P p s b) (hlt a) (hlt b)
  by_cases hj1 : j = 1
  · subst hj1
    simp only [Nat.sub_self, Nat.reduceAdd] at htorn hgap hnext
    have r1 : lp_retry (sample P p s 1) (sample P p s 0) = true := by
      cases hc : lp_retry (sample P p s 1) (sample P p s 0) with
      | true => rfl
      | false =>
        exfalso
        rw [hiff] at hc
        omega
    cases hc : lp_retry (sample P p s 2) (sample P p s 1) with
    | false =>
      have hr := rtc_read_lp_counter_accept P p s 1 (by omega) (fun i hi => by
        obtain rfl : i = 0 := by omega
        exact r1) hc
      simp only [Nat.reduceAdd] at hr
      rw [hiff] at hc
      rw [hr]
      refine ⟨rfl, 2, by omega, by omega, by omega, rfl, ?_, ?_⟩ <;>
        simp only [Nat.reduceSub] <;> omega
    | true =>
      obtain ⟨i1, i2⟩ := hinc 3 (by omega) (by omega) (by omega) (by omega)
      simp only [Nat.reduceSub] at i1 i2
      have hr := rtc_read_lp_counter_accept P p s 2 (by omega) (fun i hi => by
        have : i = 0 ∨ i = 1 := by omega
        rcases this with rfl | rfl
        · exact r1
        · exact hc) (by simp only [Nat.reduceAdd]; rw [hiff]; left; omega)
      simp only [Nat.reduceAdd] at hr
      rw [hr]
      refine ⟨rfl, 3, by omega, by omega, by omega, rfl, ?_, ?_⟩ <;>
        simp only [Nat.reduceSub] <;> omega
  · obtain ⟨i1, i2⟩ := hinc 1 (by omega) (by omega) (by omega) (by omega)
    simp only [Nat.sub_self] at i1 i2
    have hr := rtc_read_lp_counter_accept P p s 0 (by omega) (fun i hi => by omega)
      (by simp only [Nat.reduceAdd]; rw [hiff]; left; omega)
    simp only [Nat.reduceAdd] at hr
    rw [hr]
    refine ⟨rfl, 1, by omega, by omega, by omega, rfl, ?_, ?_⟩ <;>
      simp only [Nat.sub_self] <;> omega


theorem sample_recovering_script (k : Nat) (hk : k ≤ 101) :
    sample (scripted recovering_script) mmio_priv 0 k = recovering_script k := by
  rw [(sample_scripted _ _ _).2]
  apply Nat.mod_eq_of_lt
  unfold recovering_script
  split
  · norm_num
  · norm_num; omega

theorem torn_read_recovery_witness :
    (rtc_read_lp_counter (scripted recovering_script) mmio_priv 0).console = [] :=
  (torn_read_recovery (scripted recovering_script) mmio_priv 0 1 (by decide)
    (by rw [sample_recovering_script _ (by omega), sample_recovering_script _ (by omega)]
        decide)
    (by rw [sample_recovering_script _ (by omega), sample_recovering_script _ (by omega)]
        decide)
    (by rw [sample_recovering_script _ (by omega), sample_recovering_script _ (by omega)]
        decide)
    (fun k k1 k100 kne1 kne2 => by
      rw [sample_recovering_script _ (by omega), sample_recovering_script _ (by omega)]
      unfold recovering_script
      rw [if_neg (by omega), if_neg (by omega)]
      omega)).1

/-! ## Lemmas on the control register bits -/

/-- The bits of `~SNVS_LPCR_SRTC_ENV`: all of bits `1..31`. -/
theorem testBit_not32_env (i : Nat) :
    (not32 SNVS_LPCR_SRTC_ENV).testBit i = (decide (1 ≤ i) && decide (i < 32)) := by
  by_cases h : i < 32
  · interval_cases i <;> decide
  · have : (not32 SNVS_LPCR_SRTC_ENV).testBit i = false := by
      apply Nat.testBit_lt_two_pow
      calc not32 SNVS_LPCR_SRTC_ENV < 2 ^ 32 := by decide
        _ ≤ 2 ^ i := Nat.pow_le_pow_right (by norm_num) (by omega)
    rw [this]
    simp [h]

/-- On an `u32`, clearing the enable bit and setting it again is setting it. -/
theorem and_not_or_env (c : Nat) (hc : c < 2 ^ 32) :
    ((c &&& not32 SNVS_LPCR_SRTC_ENV) ||| (SNVS_LPCR_SRTC_ENV &&& SNVS_LPCR_SRTC_ENV))
      = c ||| SNVS_LPCR_SRTC_ENV := by
  apply Nat.eq_of_testBit_eq
  intro i
  simp only [Nat.testBit_or, Nat.testBit_and, testBit_not32_env]
  by_cases h0 : i = 0
  · subst h0; simp [SNVS_LPCR_SRTC_ENV]
  · by_cases h32 : i < 32
    · simp [h32, Nat.one_le_iff_ne_zero.mpr h0]
    · have : c.testBit i = false := by
        apply Nat.testBit_lt_two_pow
        calc c < 2 ^ 32 := hc
          _ ≤ 2 ^ i := Nat.pow_le_pow_right (by norm_num) (by omega)
      simp [this, h32]

theorem or_env_lt (c : Nat) (hc : c < 2 ^ 32) : c ||| SNVS_LPCR_SRTC_ENV < 2 ^ 32 :=
  Nat.or_lt_two_pow hc (by decide)

theorem and_not32_lt (c m : Nat) : c &&& not32 m < 2 ^ 32 := by
  have h : not32 m < 2 ^ 32 := by unfold not32; omega
  exact lt_of_le_of_lt Nat.and_le_right h

/-- `snvs_rtc_probe` once it has a port: the three register updates, in order. -/
theorem snvs_rtc_probe_eq {σ : Type} (P : RegisterPort σ) (dev : probe_dev) (s : σ)
    (h : dev.addr ≠ 0 ∨ dev.syscon_regmap = true) :
    snvs_rtc_probe P dev s =
      (0, { base := if dev.syscon_regmap then 0 else dev.addr,
            lp_offset := dev.offset.getD SNVS_LPREGISTER_OFFSET,
            regmap := dev.syscon_regmap },
        snvs_update_bits P
          { base := if dev.syscon_regmap then 0 else dev.addr,
            lp_offset := dev.offset.getD SNVS_LPREGISTER_OFFSET,
            regmap := dev.syscon_regmap }
          (snvs_writel P
            { base := if dev.syscon_regmap then 0 else dev.addr,
              lp_offset := dev.offset.getD SNVS_LPREGISTER_OFFSET,
              regmap := dev.syscon_regmap }
            (snvs_writel P
              { base := if dev.syscon_regmap then 0 else dev.addr,
                lp_offset := dev.offset.getD SNVS_LPREGISTER_OFFSET,
                regmap := dev.syscon_regmap }
              s SNVS_LPPGDR SNVS_LPPGDR_INIT)
            SNVS_LPSR 0xffffffff)
          SNVS_LPCR SNVS_LPCR_SRTC_ENV SNVS_LPCR_SRTC_ENV) := by
  unfold snvs_rtc_probe
  simp only
  rw [if_neg]
  intro hn
  obtain ⟨h1, h2⟩ := hn
  rw [h2] at h1 h
  simp at h1 h
  exact h h1

/-- The accesses `snvs_rtc_probe` makes once it has a port, with the value written to `LPCR`
as the code computes it. -/
theorem snvs_rtc_probe_trace {σ : Type} (P : RegisterPort σ) (dev : probe_dev) (s : σ)
    (h : dev.addr ≠ 0 ∨ dev.syscon_regmap = true) :
    ∃ c : Nat,
      (snvs_rtc_probe (recording P) dev (s, [])).2.2.2
        = [Access.wr (reg_addr (snvs_rtc_probe P dev s).2.1 SNVS_LPPGDR) SNVS_LPPGDR_INIT,
           Access.wr (reg_addr (snvs_rtc_probe P dev s).2.1 SNVS_LPSR) 0xffffffff,
           Access.rd (reg_addr (snvs_rtc_probe P dev s).2.1 SNVS_LPCR) c,
           Access.wr (reg_addr (snvs_rtc_probe P dev s).2.1 SNVS_LPCR)
             ((((c % 2 ^ 32) &&& not32 SNVS_LPCR_SRTC_ENV)
               ||| (SNVS_LPCR_SRTC_ENV &&& SNVS_LPCR_SRTC_ENV)) % 2 ^ 32)] ∧
      (snvs_rtc_probe (recording P) dev (s, [])).1 = 0 ∧
      (snvs_rtc_probe (recording P) dev (s, [])).2.1 = (snvs_rtc_probe P dev s).2.1 ∧
      (snvs_rtc_probe (recording P) dev (s, [])).2.2.1 = (snvs_rtc_probe P dev s).2.2 := by
  rw [snvs_rtc_probe_eq (recording P) dev (s, []) h, snvs_rtc_probe_eq P dev s h]
  obtain ⟨offset, addr, rm⟩ := dev
  cases rm with
  | true => exact ⟨_, rfl, rfl, rfl, rfl⟩
  | false => exact ⟨_, rfl, rfl, rfl, rfl⟩

/-- C11: the initialisation sequence.  When a port is available (an address or a register
map), `snvs_rtc_probe` writes `0x41736166` to `LPPGDR`, then all ones to `LPSR`, then reads
`LPCR` and writes it back with bit 0 set and every other bit as read, makes no other access
and returns 0; when there is neither an address nor a register map it returns `-EINVAL` and
makes no access at all. -/
theorem probe_initialisation {σ : Type} (P : RegisterPort σ) (dev : probe_dev) (s : σ) :
    (dev.addr ≠ 0 ∨ dev.syscon_regmap = true →
      ∃ c : Nat,
        (snvs_rtc_probe (recording P) dev (s, [])).2.2.2
          = [Access.wr (reg_addr (snvs_rtc_probe P dev s).2.1 SNVS_LPPGDR) 0x41736166,
             Access.wr (reg_addr (snvs_rtc_probe P dev s).2.1 SNVS_LPSR) 0xffffffff,
             Access.rd (reg_addr (snvs_rtc_probe P dev s).2.1 SNVS_LPCR) c,
             Access.wr (reg_addr (snvs_rtc_probe P dev s).2.1 SNVS_LPCR)
               ((c % 2 ^ 32) ||| 1)] ∧
        ((c % 2 ^ 32) ||| 1).testBit 0 = true ∧
        (∀ i, 1 ≤ i → ((c % 2 ^ 32) ||| 1).testBit i = (c % 2 ^ 32).testBit i) ∧
        (snvs_rtc_probe (recording P) dev (s, [])).1 = 0 ∧
        (snvs_rtc_probe (recording P) dev (s, [])).2.2.1 = (snvs_rtc_probe P dev s).2.2) ∧
    (dev.addr = 0 ∧ dev.syscon_regmap = false →
      (snvs_rtc_probe (recording P) dev (s, [])).1 = -EINVAL ∧
      (snvs_rtc_probe (recording P) dev (s, [])).2.2 = (s, [])) := by
  constructor
  · intro h
    obtain ⟨c, h1, h2, _, h4⟩ := snvs_rtc_probe_trace P dev s h
    have hc : c % 2 ^ 32 < 2 ^ 32 := Nat.mod_lt _ (by norm_num)
    rw [and_not_or_env _ hc, Nat.mod_eq_of_lt (or_env_lt _ hc)] at h1
    refine ⟨c, h1, ?_, ?_, h2, h4⟩
    · simp
    · intro i hi
      rw [Nat.testBit_or]
      have : Nat.testBit 1 i = false := by
        apply Nat.testBit_lt_two_pow
        calc 1 < 2 ^ 1 := by norm_num
          _ ≤ 2 ^ i := Nat.pow_le_pow_right (by norm_num) hi
      rw [this, Bool.or_false]
  · rintro ⟨h1, h2⟩
    obtain ⟨offset, addr, rm⟩ := dev
    simp only at h1 h2
    subst h1 h2
    exact ⟨rfl, rfl⟩

theorem probe_initialisation_witness :
    (snvs_rtc_probe (recording echo)
        { offset := none, addr := 0x44440000, syscon_regmap := false }
        (fun _ => 0, [])).1 = 0 ∧
    (snvs_rtc_probe (recording echo) { offset := none, addr := 0, syscon_regmap := false }
        (fun _ => 0, [])).1 = -EINVAL :=
  ⟨((probe_initialisation echo { offset := none, addr := 0x44440000, syscon_regmap := false }
      (fun _ => 0)).1 (Or.inl (by decide))).choose_spec.2.2.2.1,
   ((probe_initialisation echo { offset := none, addr := 0, syscon_regmap := false }
      (fun _ => 0)).2 ⟨rfl, rfl⟩).1⟩

/-- C12: well-formed calendar output.  For every time `E ≥ 0`, `time64_to_tm` yields hour
`0..23`, minute `0..59`, second `0..59`, a month index `0..11` (inside the 12-entry table)
and a day between 1 and the length of that month in the resulting year, February having 29
days exactly in leap years.  Both loops end by their own `break`: the year loop stops with
fewer days left than the year has, whatever the iteration bound from the day count on, and
the month loop stops before the end of the table with fewer days left than the month has. -/
theorem calendar_well_formed (E : Int) (h0 : 0 ≤ E) :
    (0 ≤ (time64_to_tm E).tm_hour ∧ (time64_to_tm E).tm_hour ≤ 23) ∧
    (0 ≤ (time64_to_tm E).tm_min ∧ (time64_to_tm E).tm_min ≤ 59) ∧
    (0 ≤ (time64_to_tm E).tm_sec ∧ (time64_to_tm E).tm_sec ≤ 59) ∧
    (0 ≤ (time64_to_tm E).tm_mon ∧ (time64_to_tm E).tm_mon ≤ 11) ∧
    (1 ≤ (time64_to_tm E).tm_mday ∧
      (time64_to_tm E).tm_mday
        ≤ month_days ((time64_to_tm E).tm_year + 1900) (time64_to_tm E).tm_mon.toNat) ∧
    (∀ y : Int, month_days y 1 = if is_leap y then 29 else 28) ∧
    (∀ fuel : Nat, (Int.tdiv E 86400).toNat ≤ fuel →
      time64_to_tm_years fuel (Int.tdiv E 86400) 1970
        = time64_to_tm_years (Int.tdiv E 86400).toNat (Int.tdiv E 86400) 1970 ∧
      (time64_to_tm_years fuel (Int.tdiv E 86400) 1970).1
        < year_days (time64_to_tm_years fuel (Int.tdiv E 86400) 1970).2) ∧
    ((time64_to_tm_months (time64_to_tm_years (Int.tdiv E 86400).toNat (Int.tdiv E 86400) 1970).2
        12 0 (time64_to_tm_years (Int.tdiv E 86400).toNat (Int.tdiv E 86400) 1970).1).1 < 12 ∧
      (time64_to_tm_months (time64_to_tm_years (Int.tdiv E 86400).toNat (Int.tdiv E 86400) 1970).2
        12 0 (time64_to_tm_years (Int.tdiv E 86400).toNat (Int.tdiv E 86400) 1970).1).2
        < month_days (time64_to_tm_years (Int.tdiv E 86400).toNat (Int.tdiv E 86400) 1970).2
            (time64_to_tm_months
              (time64_to_tm_years (Int.tdiv E 86400).toNat (Int.tdiv E 86400) 1970).2
              12 0 (time64_to_tm_years (Int.tdiv E 86400).toNat (Int.tdiv E 86400) 1970).1).1) := by
  have hdiv : Int.tdiv E 86400 = E / 86400 := Int.tdiv_eq_ediv h0 (by norm_num)
  have hd0 : 0 ≤ E / 86400 := by omega
  obtain ⟨n, k, d, hk, hd, hdm, e, _⟩ := time64_to_tm_fields E h0
  have e1 : (1970 + (n : Int) - 1900 + 1900) = 1970 + n := by ring
  refine ⟨?_, ?_, ?_, ?_, ?_, ?_, ?_, ?_⟩
  · rw [e]; simp only; omega
  · rw [e]; simp only; omega
  · rw [e]; simp only; omega
  · rw [e]; simp only; omega
  · rw [e]; simp only
    rw [e1, Int.toNat_natCast]
    omega
  · intro y
    cases h : is_leap y <;> simp [month_days, mdays_at, mdays, h]
  · intro fuel hf
    rw [hdiv] at hf ⊢
    have hfu := time64_to_tm_years_fuel fuel (E / 86400) 1970 hd0 hf
    obtain ⟨m, y1, _, y3, _⟩ := time64_to_tm_years_spec (E / 86400).toNat (E / 86400) 1970 hd0 le_rfl
    refine ⟨hfu, ?_⟩
    rw [hfu, y1]
    exact y3
  · rw [hdiv]
    obtain ⟨m, y1, y2, y3, y4⟩ :=
      time64_to_tm_years_spec (E / 86400).toNat (E / 86400) 1970 hd0 le_rfl
    obtain ⟨j, m1, m2, m3, m4, m5⟩ := time64_to_tm_months_spec
      (time64_to_tm_years (E / 86400).toNat (E / 86400) 1970).2 12 0
      (time64_to_tm_years (E / 86400).toNat (E / 86400) 1970).1 y2 (by omega)
    simp only [zero_add] at m1 m2 m4 m5
    have hj : j < 12 := by
      by_contra hj
      have hj12 : j = 12 := by omega
      subst hj12
      have := tm_to_time64_months_total (time64_to_tm_years (E / 86400).toNat (E / 86400) 1970).2
      simp only [Nat.cast_ofNat] at m5
      rw [y1] at this m5 m3
      omega
    rw [m1]
    exact ⟨hj, m4 hj⟩

theorem calendar_well_formed_witness :
    1 ≤ (time64_to_tm 1709164800).tm_mday ∧
      (time64_to_tm 1709164800).tm_mday
        ≤ month_days ((time64_to_tm 1709164800).tm_year + 1900)
            (time64_to_tm 1709164800).tm_mon.toNat :=
  (calendar_well_formed 1709164800 (by decide)).2.2.2.2.1

/-- When the loop condition lets a sample through, in terms of the signed difference. -/
theorem lp_retry_eq_false_iff_diff (a b : Nat) :
    lp_retry a b = false ↔ 0 ≤ lp_diff a b ∧ lp_diff a b ≤ MAX_RTC_READ_DIFF_CYCLES := by
  simp [lp_retry]

/-- Either some re-sample among the first 100 is the first one let through, or all 100 are
rejected. -/
theorem lp_counter_cases {σ : Type} (P : RegisterPort σ) (p : snvs_priv) (s : σ) :
    (∃ k, k < 100 ∧
      (∀ j, j < k → lp_retry (sample P p s (j + 1)) (sample P p s j) = true) ∧
      lp_retry (sample P p s (k + 1)) (sample P p s k) = false) ∨
    (∀ k, k < 100 → lp_retry (sample P p s (k + 1)) (sample P p s k) = true) := by
  by_cases h : ∃ k, k < 100 ∧ lp_retry (sample P p s (k + 1)) (sample P p s k) = false
  · left
    refine ⟨Nat.find h, (Nat.find_spec h).1, fun j hj => ?_, (Nat.find_spec h).2⟩
    have hmin := Nat.find_min h hj
    have hlt : j < 100 := lt_trans hj (Nat.find_spec h).1
    cases hc : lp_retry (sample P p s (j + 1)) (sample P p s j) with
    | true => rfl
    | false => exact absurd ⟨hlt, hc⟩ hmin
  · right
    intro k hk
    cases hc : lp_retry (sample P p s (k + 1)) (sample P p s k) with
    | true => rfl
    | false => exact absurd ⟨k, hk, hc⟩ h

/-- `rtc_read_lp_counter` through a recording port, when sample `k + 1` is the first one let
through: what it returns, and the `k + 2` samples it has read. -/
theorem rtc_read_lp_counter_recording_accept {σ : Type} (P : RegisterPort σ) (p : snvs_priv)
    (s : σ) (k : Nat) (hk : k < 100)
    (h : ∀ j, j < k → lp_retry (sample P p s (j + 1)) (sample P p s j) = true)
    (hacc : lp_retry (sample P p s (k + 1)) (sample P p s k) = false) :
    (rtc_read_lp_counter (recording P) p (s, [])).value
      = (sample P p s (k + 1) >>> 15) % 2 ^ 32 ∧
    (rtc_read_lp_counter (recording P) p (s, [])).console = [] ∧
    (rtc_read_lp_counter (recording P) p (s, [])).state.1 = sample_state P p s (k + 2) ∧
    reads (rtc_read_lp_counter (recording P) p (s, [])).state.2 = 2 * (k + 2) ∧
    writes (rtc_read_lp_counter (recording P) p (s, [])).state.2 = [] := by
  have hr := rtc_read_lp_counter_accept (recording P) p (s, []) k hk
    (fun j hj => by rw [sample_recording, sample_recording]; exact h j hj)
    (by rw [sample_recording, sample_recording]; exact hacc)
  obtain ⟨h1, h2, h3⟩ := sample_state_recording P p s [] (k + 2)
  rw [hr]
  refine ⟨by rw [sample_recording]; rfl, rfl, h1, ?_, h3⟩
  rw [h2]
  simp [reads]

/-- `rtc_read_lp_counter` through a recording port, when all 100 re-samples are rejected. -/
theorem rtc_read_lp_counter_recording_reject {σ : Type} (P : RegisterPort σ) (p : snvs_priv)
    (s : σ)
    (h : ∀ k, k < 100 → lp_retry (sample P p s (k + 1)) (sample P p s k) = true) :
    (rtc_read_lp_counter (recording P) p (s, [])).value
      = (sample P p s 100 >>> 15) % 2 ^ 32 ∧
    (rtc_read_lp_counter (recording P) p (s, [])).console
      = ["snvs rtc: timeout getting valid counter read\n"] ∧
    (rtc_read_lp_counter (recording P) p (s, [])).state.1 = sample_state P p s 101 ∧
    reads (rtc_read_lp_counter (recording P) p (s, [])).state.2 = 202 ∧
    writes (rtc_read_lp_counter (recording P) p (s, [])).state.2 = [] := by
  have hr := rtc_read_lp_counter_reject (recording P) p (s, []) (fun k hk => by
    rw [sample_recording, sample_recording]
    exact h k hk)
  obtain ⟨h1, h2, h3⟩ := sample_state_recording P p s [] 101
  rw [hr]
  exact ⟨by rw [sample_recording]; rfl, rfl, h1, h2, h3⟩

/-- C13: the acceptance rule of the counter reader.  For every port and port state, with
`s_k` the `k`-th 64 bit sample the port delivers: `rtc_read_lp_counter` stops at the first
`k` in `1..100` whose signed 64 bit difference `s_k - s_(k-1)` lies in `0..320`, returns
`(u32)(s_k >> 15)` and has then read `k + 1` samples; the timeout message is printed if and
only if there is no such `k`; and never more than 101 samples (202 register reads) are
read, and nothing is written. -/
theorem acceptance_rule {σ : Type} (P : RegisterPort σ) (p : snvs_priv) (s : σ) :
    (∀ k, 1 ≤ k → k ≤ 100 →
      (0 ≤ lp_diff (sample P p s k) (sample P p s (k - 1)) ∧
        lp_diff (sample P p s k) (sample P p s (k - 1)) ≤ MAX_RTC_READ_DIFF_CYCLES) →
      (∀ j, 1 ≤ j → j < k →
        ¬ (0 ≤ lp_diff (sample P p s j) (sample P p s (j - 1)) ∧
          lp_diff (sample P p s j) (sample P p s (j - 1)) ≤ MAX_RTC_READ_DIFF_CYCLES)) →
      (rtc_read_lp_counter (recording P) p (s, [])).value = (sample P p s k >>> 15) % 2 ^ 32 ∧
      (rtc_read_lp_counter (recording P) p (s, [])).console = [] ∧
      (rtc_read_lp_counter (recording P) p (s, [])).state.1 = sample_state P p s (k + 1) ∧
      reads (rtc_read_lp_counter (recording P) p (s, [])).state.2 = 2 * (k + 1)) ∧
    ((rtc_read_lp_counter (recording P) p (s, [])).console
        = ["snvs rtc: timeout getting valid counter read\n"] ↔
      ∀ k, 1 ≤ k → k ≤ 100 →
        ¬ (0 ≤ lp_diff (sample P p s k) (sample P p s (k - 1)) ∧
          lp_diff (sample P p s k) (sample P p s (k - 1)) ≤ MAX_RTC_READ_DIFF_CYCLES)) ∧
    reads (rtc_read_lp_counter (recording P) p (s, [])).state.2 ≤ 202 ∧
    writes (rtc_read_lp_counter (recording P) p (s, [])).state.2 = [] := by
  have hno : ∀ a b : Nat,
      ¬ (0 ≤ lp_diff a b ∧ lp_diff a b ≤ MAX_RTC_READ_DIFF_CYCLES) → lp_retry a b = true := by
    intro a b hn
    cases hc : lp_retry a b with
    | true => rfl
    | false => exact absurd ((lp_retry_eq_false_iff_diff a b).mp hc) hn
  refine ⟨?_, ?_, ?_⟩
  · intro k k1 k100 hgood hfirst
    obtain ⟨i, rfl⟩ : ∃ i, k = i + 1 := ⟨k - 1, by omega⟩
    simp only [Nat.add_one_sub_one] at hgood
    obtain ⟨h1, h2, h3, h4, _⟩ := rtc_read_lp_counter_recording_accept P p s i (by omega)
      (fun j hj => by
        have := hfirst (j + 1) (by omega) (by omega)
        simp only [Nat.add_one_sub_one] at this
        exact hno _ _ this)
      ((lp_retry_eq_false_iff_diff _ _).mpr hgood)
    exact ⟨h1, h2, h3, h4⟩
  · rcases lp_counter_cases P p s with ⟨k, hk, hrej, hacc⟩ | hall
    · obtain ⟨_, h2, _⟩ := rtc_read_lp_counter_recording_accept P p s k hk hrej hacc
      rw [h2]
      constructor
      · intro h
        exact absurd h (by simp)
      · intro h
        have := h (k + 1) (by omega) (by omega)
        simp only [Nat.add_one_sub_one] at this
        exact absurd ((lp_retry_eq_false_iff_diff _ _).mp hacc) this
    · obtain ⟨_, h2, _⟩ := rtc_read_lp_counter_recording_reject P p s hall
      rw [h2]
      refine ⟨fun _ k k1 k100 hgood => ?_, fun _ => rfl⟩
      have := hall (k - 1) (by omega)
      rw [show k - 1 + 1 = k by omega, (lp_retry_eq_false_iff_diff _ _).mpr hgood] at this
      exact absurd this (by simp)
  · rcases lp_counter_cases P p s with ⟨k, hk, hrej, hacc⟩ | hall
    · obtain ⟨_, _, _, h4, h5⟩ := rtc_read_lp_counter_recording_accept P p s k hk hrej hacc
      exact ⟨by omega, h5⟩
    · obtain ⟨_, _, _, h4, h5⟩ := rtc_read_lp_counter_recording_reject P p s hall
      exact ⟨by omega, h5⟩

theorem acceptance_rule_witness :
    (rtc_read_lp_counter (recording (scripted recovering_script)) mmio_priv (0, [])).value
      = (sample (scripted recovering_script) mmio_priv 0 3 >>> 15) % 2 ^ 32 ∧
    reads (rtc_read_lp_counter (recording (scripted recovering_script)) mmio_priv
      (0, [])).state.2 = 8 :=
  have h := (acceptance_rule (scripted recovering_script) mmio_priv 0).1 3 (by decide)
    (by decide)
    (by
      rw [sample_recovering_script _ (by omega), sample_recovering_script _ (by omega)]
      decide)
    (fun j j1 j3 => by
      have hj : j = 1 ∨ j = 2 := by omega
      rcases hj with rfl | rfl
      · rw [sample_recovering_script _ (by omega), sample_recovering_script _ (by omega)]
        decide
      · rw [sample_recovering_script _ (by omega), sample_recovering_script _ (by omega)]
        decide)
  ⟨h.1, h.2.2.2⟩

/-- C14: bit-width splitting on write.  Every epoch value `t` with `0 ≤ t < 2 ^ 49` is the
value `tm_to_time64` computes for some calendar input inside the range of the `int`
arithmetic; and for every such input with value `t`, the writes of `snvs_rtc_set_time` are
`LPCR`, the low word `(t << 15) mod 2 ^ 32` to `LPSRTCLR`, the high word
`(t >> 17) mod 2 ^ 32` to `LPSRTCMR`, `LPCR`; the two words assemble to `t << 15` as
`rtc_read_lpsrt` assembles them, the 15 low bits of the low word are zero, and the assembled
value shifted right by 15 is `t`. -/
theorem set_time_word_split {σ : Type} (P : RegisterPort σ) (p : snvs_priv) (s : σ)
    (t : Nat) (h49 : t < 2 ^ 49) :
    (∃ tm : rtc_time, tm_to_time64_in_range tm ∧ tm_to_time64 tm = (t : Int)) ∧
    ∀ tm : rtc_time, tm_to_time64_in_range tm → tm_to_time64 tm = (t : Int) →
      ∃ c0 c1 lo hi : Nat,
        writes (snvs_rtc_set_time (recording P) p (s, []) tm).2.2
          = [(reg_addr p SNVS_LPCR, c0), (reg_addr p SNVS_LPSRTCLR, lo),
             (reg_addr p SNVS_LPSRTCMR, hi), (reg_addr p SNVS_LPCR, c1)] ∧
        lo = (t <<< 15) % 2 ^ 32 ∧
        hi = (t >>> 17) % 2 ^ 32 ∧
        ((hi <<< 32) ||| lo) = t <<< 15 ∧
        lo % 2 ^ 15 = 0 ∧
        ((hi <<< 32) ||| lo) >>> 15 = t := by
  refine ⟨⟨time64_to_tm (t : Int), time64_to_tm_in_range (t : Int) (by omega)
    (by exact_mod_cast h49)⟩, ?_⟩
  intro tm _ ht
  obtain ⟨x, y, hw⟩ := snvs_rtc_set_time_writes P p s tm
  rw [ht] at hw
  have hlo : (((t : Int) * 2 ^ 15) % 2 ^ 32).toNat % 2 ^ 32 = (t <<< 15) % 2 ^ 32 := by
    rw [Nat.shiftLeft_eq]
    norm_num
    omega
  have hhi : (((t : Int) / 2 ^ 17) % 2 ^ 32).toNat % 2 ^ 32 = (t >>> 17) % 2 ^ 32 := by
    rw [Nat.shiftRight_eq_div_pow]
    norm_num
    omega
  rw [hlo, hhi] at hw
  have hlt : (t <<< 15) % 2 ^ 32 < 2 ^ 32 := Nat.mod_lt _ (by norm_num)
  have hasm : (((t >>> 17) % 2 ^ 32) <<< 32) ||| ((t <<< 15) % 2 ^ 32) = t <<< 15 := by
    rw [shift_or_eq _ _ hlt, Nat.shiftLeft_eq, Nat.shiftRight_eq_div_pow]
    norm_num at h49 ⊢
    omega
  refine ⟨_, _, _, _, hw, rfl, rfl, hasm, ?_, ?_⟩
  · rw [Nat.shiftLeft_eq]
    norm_num
  · rw [hasm, Nat.shiftLeft_eq, Nat.shiftRight_eq_div_pow]
    norm_num

theorem set_time_word_split_witness :
    tm_to_time64_in_range { tm_sec := 0, tm_min := 0, tm_hour := 0, tm_mday := 1,
                            tm_mon := 0, tm_year := 125 } ∧
    ∃ c0 c1 lo hi : Nat,
      writes (snvs_rtc_set_time (recording echo) mmio_priv (fun _ => 0, [])
          { tm_sec := 0, tm_min := 0, tm_hour := 0, tm_mday := 1, tm_mon := 0,
            tm_year := 125 }).2.2
        = [(reg_addr mmio_priv SNVS_LPCR, c0), (reg_addr mmio_priv SNVS_LPSRTCLR, lo),
           (reg_addr mmio_priv SNVS_LPSRTCMR, hi), (reg_addr mmio_priv SNVS_LPCR, c1)] ∧
      lo = (1735689600 <<< 15) % 2 ^ 32 ∧
      hi = (1735689600 >>> 17) % 2 ^ 32 ∧
      ((hi <<< 32) ||| lo) = 1735689600 <<< 15 ∧
      lo % 2 ^ 15 = 0 ∧
      ((hi <<< 32) ||| lo) >>> 15 = 1735689600 :=
  ⟨by decide,
   (set_time_word_split echo mmio_priv (fun _ => 0) 1735689600 (by decide)).2 _ (by decide)
     (by decide)⟩

/-- `snvs_rtc_read_time` when sample `k + 1` is the first one let through: the calendar time
is decoded from that sample shifted right by 15 bits, as an `u32`. -/
theorem snvs_rtc_read_time_accept {σ : Type} (P : RegisterPort σ) (p : snvs_priv) (s : σ)
    (k : Nat) (hk : k < 100)
    (h : ∀ j, j < k → lp_retry (sample P p s (j + 1)) (sample P p s j) = true)
    (hacc : lp_retry (sample P p s (k + 1)) (sample P p s k) = false) :
    snvs_rtc_read_time P p s =
      { ret := 0
        tm := time64_to_tm (((sample P p s (k + 1) / 2 ^ 15 % 2 ^ 32 : Nat)) : Int)
        console := []
        state := sample_state P p s (k + 2) } := by
  have hr := rtc_read_lp_counter_accept P p s k hk h hacc
  have e : snvs_rtc_read_time P p s =
      { ret := 0, tm := snvs_time64_to_tm (((rtc_read_lp_counter P p s).value : Nat) : Int),
        console := (rtc_read_lp_counter P p s).console,
        state := (rtc_read_lp_counter P p s).state } := rfl
  rw [e, hr]
  simp only [CNTR_TO_SECS_SH, Nat.shiftRight_eq_div_pow, snvs_time64_to_tm]

/-- C15: sub-second truncation on read.  When the port is stable, that is when some
re-sample among the first 100 is let through, the seconds `snvs_rtc_read_time` hands to the
calendar codec are `floor (raw / 2 ^ 15) mod 2 ^ 32` for the accepted sample `raw`; so two
reads whose accepted samples differ only in their bottom 15 bits yield the same calendar
time. -/
theorem read_time_truncation {σ τ : Type} (P : RegisterPort σ) (Q : RegisterPort τ)
    (p q : snvs_priv) (s : σ) (u : τ) (k m : Nat) (hk : k < 100) (hm : m < 100)
    (hP : ∀ j, j < k → lp_retry (sample P p s (j + 1)) (sample P p s j) = true)
    (haccP : lp_retry (sample P p s (k + 1)) (sample P p s k) = false)
    (hQ : ∀ j, j < m → lp_retry (sample Q q u (j + 1)) (sample Q q u j) = true)
    (haccQ : lp_retry (sample Q q u (m + 1)) (sample Q q u m) = false) :
    (snvs_rtc_read_time P p s).tm
      = time64_to_tm (((sample P p s (k + 1) / 2 ^ 15 % 2 ^ 32 : Nat)) : Int) ∧
    (sample P p s (k + 1) / 2 ^ 15 = sample Q q u (m + 1) / 2 ^ 15 →
      (snvs_rtc_read_time P p s).tm = (snvs_rtc_read_time Q q u).tm) := by
  rw [snvs_rtc_read_time_accept P p s k hk hP haccP,
    snvs_rtc_read_time_accept Q q u m hm hQ haccQ]
  refine ⟨rfl, fun h => ?_⟩
  simp only
  rw [h]

theorem read_time_truncation_witness :
    (snvs_rtc_read_time echo mmio_priv
        (fun a => if a = reg_addr mmio_priv SNVS_LPSRTCMR then 13242 else 0)).tm
      = (snvs_rtc_read_time echo mmio_priv
        (fun a => if a = reg_addr mmio_priv SNVS_LPSRTCMR then 13242 else 32767)).tm :=
  (read_time_truncation echo echo mmio_priv mmio_priv
    (fun a => if a = reg_addr mmio_priv SNVS_LPSRTCMR then 13242 else 0)
    (fun a => if a = reg_addr mmio_priv SNVS_LPSRTCMR then 13242 else 32767)
    0 0 (by decide) (by decide) (fun j hj => absurd hj (Nat.not_lt_zero j)) (by decide)
    (fun j hj => absurd hj (Nat.not_lt_zero j)) (by decide)).2 (by decide)

theorem env_and_env : SNVS_LPCR_SRTC_ENV &&& SNVS_LPCR_SRTC_ENV = SNVS_LPCR_SRTC_ENV := by
  decide

/-- The control register of a store-and-echo port during and after `snvs_rtc_set_time`; the
counter words are those the embedding computes. -/
theorem snvs_rtc_set_time_echo_lpcr (p : snvs_priv) (s : Nat → Nat) (tm : rtc_time) (c : Nat)
    (hc : s (reg_addr p SNVS_LPCR) = c) (hc32 : c < 2 ^ 32) :
    (snvs_rtc_set_time echo p s tm).2 (reg_addr p SNVS_LPCR) = c ||| SNVS_LPCR_SRTC_ENV ∧
    writes (snvs_rtc_set_time (recording echo) p (s, []) tm).2.2
      = [(reg_addr p SNVS_LPCR, c &&& not32 SNVS_LPCR_SRTC_ENV),
         (reg_addr p SNVS_LPSRTCLR, ((tm_to_time64 tm * 2 ^ 15) % 2 ^ 32).toNat),
         (reg_addr p SNVS_LPSRTCMR, ((tm_to_time64 tm / 2 ^ 17) % 2 ^ 32).toNat),
         (reg_addr p SNVS_LPCR, c ||| SNVS_LPCR_SRTC_ENV)] := by
  obtain ⟨h1, h2, h3⟩ := reg_addr_counter_ne p
  have e1 : ((tm_to_time64 tm * 2 ^ 15) % 2 ^ 32).toNat % 2 ^ 32
      = ((tm_to_time64 tm * 2 ^ 15) % 2 ^ 32).toNat := by
    apply Nat.mod_eq_of_lt
    norm_num
    omega
  have e2 : ((tm_to_time64 tm / 2 ^ 17) % 2 ^ 32).toNat % 2 ^ 32
      = ((tm_to_time64 tm / 2 ^ 17) % 2 ^ 32).toNat := by
    apply Nat.mod_eq_of_lt
    norm_num
    omega
  have e3 : c % 2 ^ 32 = c := Nat.mod_eq_of_lt hc32
  have e4 : (c &&& not32 SNVS_LPCR_SRTC_ENV) % 2 ^ 32 = c &&& not32 SNVS_LPCR_SRTC_ENV :=
    Nat.mod_eq_of_lt (and_not32_lt c _)
  have e5 : ((c &&& not32 SNVS_LPCR_SRTC_ENV) ||| SNVS_LPCR_SRTC_ENV) % 2 ^ 32
      = c ||| SNVS_LPCR_SRTC_ENV := by
    have := and_not_or_env c hc32
    rw [env_and_env] at this
    rw [this, Nat.mod_eq_of_lt (or_env_lt c hc32)]
  have f1 : (snvs_rtc_set_time echo p s tm).2 (reg_addr p SNVS_LPCR)
      = (((s (reg_addr p SNVS_LPCR) % 2 ^ 32 &&& not32 SNVS_LPCR_SRTC_ENV) % 2 ^ 32
          ||| SNVS_LPCR_SRTC_ENV) % 2 ^ 32) := by
    simp only [snvs_rtc_set_time, snvs_writel, snvs_readl, echo, snvs_tm_to_time64]
    simp [h2.symm, h3.symm]
  have f2 : writes (snvs_rtc_set_time (recording echo) p (s, []) tm).2.2
      = [(reg_addr p SNVS_LPCR,
            (s (reg_addr p SNVS_LPCR) % 2 ^ 32 &&& not32 SNVS_LPCR_SRTC_ENV) % 2 ^ 32),
         (reg_addr p SNVS_LPSRTCLR, ((tm_to_time64 tm * 2 ^ 15) % 2 ^ 32).toNat % 2 ^ 32),
         (reg_addr p SNVS_LPSRTCMR, ((tm_to_time64 tm / 2 ^ 17) % 2 ^ 32).toNat % 2 ^ 32),
         (reg_addr p SNVS_LPCR,
            (((s (reg_addr p SNVS_LPCR) % 2 ^ 32 &&& not32 SNVS_LPCR_SRTC_ENV) % 2 ^ 32
              ||| SNVS_LPCR_SRTC_ENV) % 2 ^ 32))] := by
    simp only [snvs_rtc_set_time, snvs_writel, snvs_readl, echo, recording, snvs_tm_to_time64,
      CNTR_TO_SECS_SH, List.nil_append, List.append_assoc, List.singleton_append,
      List.cons_append, writes]
    simp [h2.symm, h3.symm]
  rw [f1, f2, hc, e1, e2, e3, e4, e5]
  exact ⟨rfl, rfl⟩

/-- C16: the frame condition of `snvs_rtc_set_time` on the control register.  On a
store-and-echo port whose `LPCR` holds the `u32` value `c`, for every calendar input, `LPCR`
holds `c | 1` afterwards: bit 0 is set and every other bit is as in `c`; the value written
while the counter is disabled, before the two counter words, is `c & 0xfffffffe`: bit 0
clear and every other bit as in `c`. -/
theorem set_time_control_frame (p : snvs_priv) (s : Nat → Nat) (tm : rtc_time) (c : Nat)
    (hc : s (reg_addr p SNVS_LPCR) = c) (hc32 : c < 2 ^ 32) :
    (snvs_rtc_set_time echo p s tm).2 (reg_addr p SNVS_LPCR) = c ||| 1 ∧
    (c ||| 1).testBit 0 = true ∧
    (∀ i, 1 ≤ i → (c ||| 1).testBit i = c.testBit i) ∧
    (∃ lo hi : Nat,
      writes (snvs_rtc_set_time (recording echo) p (s, []) tm).2.2
        = [(reg_addr p SNVS_LPCR, c &&& 0xfffffffe),
           (reg_addr p SNVS_LPSRTCLR, lo),
           (reg_addr p SNVS_LPSRTCMR, hi),
           (reg_addr p SNVS_LPCR, c ||| 1)]) ∧
    (c &&& 0xfffffffe).testBit 0 = false ∧
    (∀ i, 1 ≤ i → (c &&& 0xfffffffe).testBit i = c.testBit i) := by
  obtain ⟨h1, h2⟩ := snvs_rtc_set_time_echo_lpcr p s tm c hc hc32
  have hen : SNVS_LPCR_SRTC_ENV = 1 := by decide
  have hnot : not32 SNVS_LPCR_SRTC_ENV = 0xfffffffe := by decide
  have hbit := testBit_not32_env
  rw [hnot] at h2 hbit
  rw [hen] at h1 h2
  have hone : ∀ i, 1 ≤ i → Nat.testBit 1 i = false := by
    intro i hi
    apply Nat.testBit_lt_two_pow
    calc 1 < 2 ^ 1 := by norm_num
      _ ≤ 2 ^ i := Nat.pow_le_pow_right (by norm_num) hi
  refine ⟨h1, by simp, ?_, ⟨_, _, h2⟩, ?_, ?_⟩
  · intro i hi
    rw [Nat.testBit_or, hone i hi, Bool.or_false]
  · rw [Nat.testBit_and, hbit]
    simp
  · intro i hi
    rw [Nat.testBit_and, hbit]
    by_cases h32 : i < 32
    · simp [hi, h32]
    · have : c.testBit i = false := by
        apply Nat.testBit_lt_two_pow
        calc c < 2 ^ 32 := hc32
          _ ≤ 2 ^ i := Nat.pow_le_pow_right (by norm_num) (by omega)
      simp [this]

theorem set_time_control_frame_witness :
    (snvs_rtc_set_time echo mmio_priv (fun _ => 0xa)
        { tm_sec := 0, tm_min := 0, tm_hour := 0, tm_mday := 1, tm_mon := 0,
          tm_year := 125 }).2 (reg_addr mmio_priv SNVS_LPCR)
      = 0xa ||| 1 :=
  (set_time_control_frame mmio_priv (fun _ => 0xa) _ 0xa rfl (by decide)).1

/-! ## Lemmas on the order of calendar times -/

/-- The days before a later year include the whole of an earlier year. -/
theorem tm_to_time64_years_mono (n m : Nat) (h : n < m) :
    tm_to_time64_years (1970 + n) n 1970 0 + year_days (1970 + n)
      ≤ tm_to_time64_years (1970 + m) m 1970 0 := by
  induction m with
  | zero => omega
  | succ m ih =>
    rw [tm_to_time64_years_succ m 1970]
    by_cases hnm : n = m
    · subst hnm; omega
    · have := ih (by omega)
      rcases year_days_cases (1970 + m) with h1 | h1 <;> omega

theorem tm_to_time64_months_succ (year : Int) (k : Nat) (hk : k < 11) :
    tm_to_time64_months year ((k + 1 : Nat) : Int) (k + 1) 0 0
      = tm_to_time64_months year (k : Int) k 0 0 + month_days year k := by
  interval_cases k <;> cases h : is_leap year <;>
    simp [tm_to_time64_months, month_days, mdays_at, mdays, h]

/-- The days before a later month include the whole of an earlier month. -/
theorem tm_to_time64_months_mono (year : Int) (k m : Nat) (h : k < m) (hm : m < 12) :
    tm_to_time64_months year (k : Int) k 0 0 + month_days year k
      ≤ tm_to_time64_months year (m : Int) m 0 0 := by
  induction m with
  | zero => omega
  | succ m ih =>
    rw [tm_to_time64_months_succ year m (by omega)]
    by_cases hkm : k = m
    · subst hkm; omega
    · have := ih (by omega) (by omega)
      have := month_days_nonneg year m
      omega

/-- A later time decodes to a calendar time that is later in the lexicographic order. -/
theorem time64_to_tm_lt (E1 E2 : Int) (h0 : 0 ≤ E1) (h : E1 < E2) :
    tm_lt (time64_to_tm E1) (time64_to_tm E2) := by
  obtain ⟨n1, k1, d1, hk1, hd1, hm1, e1, hs1⟩ := time64_to_tm_fields E1 h0
  obtain ⟨n2, k2, d2, hk2, hd2, hm2, e2, hs2⟩ := time64_to_tm_fields E2 (by omega)
  rw [e1, e2]
  unfold tm_lt
  simp only
  have hP1 := tm_to_time64_months_upto (1970 + n1) k1 hk1
  have hP2 := tm_to_time64_months_upto (1970 + n2) k2 hk2
  have hM1 := tm_to_time64_months_nonneg (1970 + n1) k1 0 k1
  have hM2 := tm_to_time64_months_nonneg (1970 + n2) k2 0 k2
  rcases lt_trichotomy n1 n2 with hn | hn | hn
  · left; omega
  · subst hn
    right
    refine ⟨rfl, ?_⟩
    rcases lt_trichotomy k1 k2 with hk | hk | hk
    · left; omega
    · subst hk
      right
      refine ⟨rfl, ?_⟩
      generalize tm_to_time64_years (1970 + n1) n1 1970 0 = SY at *
      generalize tm_to_time64_months (1970 + n1) k1 k1 0 0 = SM at *
      omega
    · exfalso
      have := tm_to_time64_months_mono (1970 + n1) k2 k1 hk hk1
      generalize tm_to_time64_years (1970 + n1) n1 1970 0 = SY at *
      generalize tm_to_time64_months (1970 + n1) k1 k1 0 0 = SM1 at *
      generalize tm_to_time64_months (1970 + n1) k2 k2 0 0 = SM2 at *
      omega
  · exfalso
    have := tm_to_time64_years_mono n2 n1 hn
    generalize tm_to_time64_years (1970 + n1) n1 1970 0 = SY1 at *
    generalize tm_to_time64_years (1970 + n2) n2 1970 0 = SY2 at *
    generalize tm_to_time64_months (1970 + n1) k1 k1 0 0 = SM1 at *
    generalize tm_to_time64_months (1970 + n2) k2 k2 0 0 = SM2 at *
    omega

theorem tm_lt_irrefl (a : rtc_time) : ¬ tm_lt a a := by
  unfold tm_lt
  omega

/-- C17: calendar order is preserved.  For all times `0 ≤ E1 < E2`, in particular for all
`E1 < E2` in `0..2 ^ 32 - 1`, the tuple (year, month, day, hour, minute, second) of
`time64_to_tm E1` is strictly smaller in the lexicographic order than the tuple of
`time64_to_tm E2`; hence `time64_to_tm` is injective on the non-negative times. -/
theorem calendar_order (E1 E2 : Int) (h0 : 0 ≤ E1) :
    (E1 < E2 → tm_lt (time64_to_tm E1) (time64_to_tm E2)) ∧
    (0 ≤ E2 → time64_to_tm E1 = time64_to_tm E2 → E1 = E2) := by
  refine ⟨fun h => time64_to_tm_lt E1 E2 h0 h, fun h2 heq => ?_⟩
  rcases lt_trichotomy E1 E2 with h | h | h
  · have := time64_to_tm_lt E1 E2 h0 h
    rw [heq] at this
    exact absurd this (tm_lt_irrefl _)
  · exact h
  · have := time64_to_tm_lt E2 E1 h2 h
    rw [heq] at this
    exact absurd this (tm_lt_irrefl _)

theorem calendar_order_witness :
    tm_lt (time64_to_tm 1709251199) (time64_to_tm 1709251200) :=
  (calendar_order 1709251199 1709251200 (by decide)).1 (by decide)

end SNVS

namespace Beeper

/-! ## Lemmas on the command parsing -/

theorem strlen_eq_length (v : List Char) (hv : ∀ c ∈ v, c ≠ NUL) : strlen v = v.length := by
  induction v with
  | nil => rfl
  | cons a as ih =>
    have ha : a ≠ NUL := hv a (List.mem_cons_self a as)
    simp only [strlen, if_neg ha, List.length_cons]
    rw [ih (fun c hc => hv c (List.mem_cons_of_mem a hc))]

theorem toNat_sub_ne_zero (a b : Char) (h : a ≠ b) : (a.toNat : Int) - (b.toNat : Int) ≠ 0 := by
  intro h2
  apply h
  apply Char.ext
  apply UInt32.ext
  have : a.toNat = b.toNat := by omega
  exact this

/-- On a C string `v`, `strncmp (v, l, strlen (v))` is 0 exactly when `l` starts with `v`. -/
theorem strncmp_eq_zero_iff (v l : List Char) (hv : ∀ c ∈ v, c ≠ NUL) :
    strncmp v l v.length = 0 ↔ ∃ t, v ++ t = l := by
  induction v generalizing l with
  | nil => simp [strncmp]
  | cons a as ih =>
    have ha : a ≠ NUL := hv a (List.mem_cons_self a as)
    have has : ∀ c ∈ as, c ≠ NUL := fun c hc => hv c (List.mem_cons_of_mem a hc)
    cases l with
    | nil =>
      simp only [List.length_cons, strncmp, List.headD_cons, List.headD_nil, ne_eq, ha,
        not_false_eq_true, if_true]
      constructor
      · intro h
        exact absurd h (toNat_sub_ne_zero a NUL ha)
      · rintro ⟨t, ht⟩
        simp at ht
    | cons b bs =>
      simp only [List.length_cons, strncmp, List.headD_cons, List.tail_cons, ne_eq]
      by_cases hab : a = b
      · subst hab
        simp only [not_true_eq_false, if_false, ha]
        rw [ih bs has]
        simp
      · simp only [hab, not_false_eq_true, if_true]
        constructor
        · intro h
          exact absurd h (toNat_sub_ne_zero a b hab)
        · rintro ⟨t, ht⟩
          simp at ht
          exact absurd ht.1 hab

/-- `get_beeper_cmd` as the cascade of the three comparisons. -/
theorem get_beeper_cmd_eq (v : List Char) :
    get_beeper_cmd v =
      if strncmp v ['o', 'f', 'f'] (strlen v) = 0 then 0
      else if strncmp v ['o', 'n'] (strlen v) = 0 then 1
      else if strncmp v ['t', 'o', 'g', 'g', 'l', 'e'] (strlen v) = 0 then 2
      else -1 := by
  simp [get_beeper_cmd, get_beeper_cmd_loop, BEEPER_STATUS_COUNT, state_label]

/-- C18: command parsing matches by prefix.  For every argument string `v`,
`get_beeper_cmd v` is the index of the first label, in the order off, on, toggle, that
starts with `v`, and `-1` when no label starts with `v`; the words off, on and toggle give
`BEEPER_STATUS_OFF`, `BEEPER_STATUS_ON` and `BEEPER_STATUS_TOGGLE`, and the empty string and
the string o both give `BEEPER_STATUS_OFF`. -/
theorem get_beeper_cmd_first_match (v : List Char) (hv : ∀ c ∈ v, c ≠ NUL) :
    (∀ i : Nat, i < 3 → (∃ t, v ++ t = state_label.getD i []) →
      (∀ j : Nat, j < i → ¬ ∃ t, v ++ t = state_label.getD j []) →
      get_beeper_cmd v = (i : Int)) ∧
    ((∀ i : Nat, i < 3 → ¬ ∃ t, v ++ t = state_label.getD i []) → get_beeper_cmd v = -1) ∧
    get_beeper_cmd ['o', 'f', 'f'] = BEEPER_STATUS_OFF ∧
    get_beeper_cmd ['o', 'n'] = BEEPER_STATUS_ON ∧
    get_beeper_cmd ['t', 'o', 'g', 'g', 'l', 'e'] = BEEPER_STATUS_TOGGLE ∧
    get_beeper_cmd [] = BEEPER_STATUS_OFF ∧
    get_beeper_cmd ['o'] = BEEPER_STATUS_OFF := by
  have h0 := strncmp_eq_zero_iff v ['o', 'f', 'f'] hv
  have h1 := strncmp_eq_zero_iff v ['o', 'n'] hv
  have h2 := strncmp_eq_zero_iff v ['t', 'o', 'g', 'g', 'l', 'e'] hv
  rw [← strlen_eq_length v hv] at h0 h1 h2
  have l0 : state_label.getD 0 [] = ['o', 'f', 'f'] := rfl
  have l1 : state_label.getD 1 [] = ['o', 'n'] := rfl
  have l2 : state_label.getD 2 [] = ['t', 'o', 'g', 'g', 'l', 'e'] := rfl
  refine ⟨?_, ?_, by decide, by decide, by decide, by decide, by decide⟩
  · intro i hi hpre hfirst
    rw [get_beeper_cmd_eq]
    have hi3 : i = 0 ∨ i = 1 ∨ i = 2 := by omega
    rcases hi3 with rfl | rfl | rfl
    · rw [l0, ← h0] at hpre
      rw [if_pos hpre]
      rfl
    · have n0 := hfirst 0 (by omega)
      rw [l0, ← h0] at n0
      rw [l1, ← h1] at hpre
      rw [if_neg n0, if_pos hpre]
      rfl
    · have n0 := hfirst 0 (by omega)
      have n1 := hfirst 1 (by omega)
      rw [l0, ← h0] at n0
      rw [l1, ← h1] at n1
      rw [l2, ← h2] at hpre
      rw [if_neg n0, if_neg n1, if_pos hpre]
      rfl
  · intro hnone
    rw [get_beeper_cmd_eq]
    have n0 := hnone 0 (by omega)
    have n1 := hnone 1 (by omega)
    have n2 := hnone 2 (by omega)
    rw [l0, ← h0] at n0
    rw [l1, ← h1] at n1
    rw [l2, ← h2] at n2
    rw [if_neg n0, if_neg n1, if_neg n2]

theorem get_beeper_cmd_first_match_witness :
    get_beeper_cmd ['t', 'o', 'g'] = ((2 : Nat) : Int) :=
  (get_beeper_cmd_first_match ['t', 'o', 'g'] (by decide)).1 2 (by decide)
    ⟨['g', 'l', 'e'], rfl⟩
    (fun j hj => by
      have : j = 0 ∨ j = 1 := by omega
      rcases this with rfl | rfl
      · rintro ⟨t, ht⟩
        exact absurd ht (by simp [state_label])
      · rintro ⟨t, ht⟩
        exact absurd ht (by simp [state_label]))

/-- C19: the GPIO beeper state machine.  On a valid GPIO, `gpio_beeper_set_state` with ON or
OFF returns 0 and stores that state, which `gpio_beeper_get_state` then returns; with TOGGLE
it returns 0 and stores the negation of the current bit, so that `gpio_beeper_get_state`
returns the opposite state, and toggling twice restores the GPIO; with any other state it
returns `-ENOSYS` and leaves the GPIO unchanged.  On an invalid GPIO both operations return
`-EREMOTEIO` and the GPIO is unchanged. -/
theorem gpio_beeper_state_machine (d : gpio_desc) :
    (d.valid = true →
      (∀ st : Int, st = BEEPER_STATUS_OFF ∨ st = BEEPER_STATUS_ON →
        (gpio_beeper_set_state d st).1 = 0 ∧
        gpio_beeper_get_state (gpio_beeper_set_state d st).2 = st) ∧
      ((gpio_beeper_set_state d BEEPER_STATUS_TOGGLE).1 = 0 ∧
        (gpio_beeper_set_state d BEEPER_STATUS_TOGGLE).2.value = !d.value ∧
        gpio_beeper_get_state (gpio_beeper_set_state d BEEPER_STATUS_TOGGLE).2
          = (if gpio_beeper_get_state d = BEEPER_STATUS_ON then BEEPER_STATUS_OFF
             else BEEPER_STATUS_ON) ∧
        (gpio_beeper_set_state (gpio_beeper_set_state d BEEPER_STATUS_TOGGLE).2
          BEEPER_STATUS_TOGGLE).2 = d) ∧
      (∀ st : Int, st ≠ BEEPER_STATUS_OFF → st ≠ BEEPER_STATUS_ON →
        st ≠ BEEPER_STATUS_TOGGLE → gpio_beeper_set_state d st = (-ENOSYS, d))) ∧
    (d.valid = false →
      (∀ st : Int, gpio_beeper_set_state d st = (- EREMOTEIO, d)) ∧
      gpio_beeper_get_state d = - EREMOTEIO) := by
  obtain ⟨valid, value⟩ := d
  constructor
  · intro hv
    simp only at hv
    subst hv
    refine ⟨?_, ?_, ?_⟩
    · intro st hst
      rcases hst with rfl | rfl <;> cases value <;> decide
    · cases value <;> decide
    · intro st h0 h1 h2
      simp only [gpio_beeper_set_state, dm_gpio_is_valid, Bool.true_eq_false, if_false, h0, h1,
        h2, or_self]
  · intro hv
    simp only at hv
    subst hv
    refine ⟨fun st => ?_, ?_⟩
    · simp [gpio_beeper_set_state, dm_gpio_is_valid]
    · simp [gpio_beeper_get_state, dm_gpio_is_valid]

theorem gpio_beeper_state_machine_witness :
    gpio_beeper_get_state
        (gpio_beeper_set_state { valid := true, value := false } BEEPER_STATUS_TOGGLE).2
      = (if gpio_beeper_get_state { valid := true, value := false } = BEEPER_STATUS_ON
         then BEEPER_STATUS_OFF else BEEPER_STATUS_ON) ∧
    gpio_beeper_get_state { valid := false, value := true } = - EREMOTEIO :=
  ⟨((gpio_beeper_state_machine { valid := true, value := false }).1 rfl).2.1.2.2.1,
   ((gpio_beeper_state_machine { valid := false, value := true }).2 rfl).2⟩

end Beeper
